import Mathlib

/-!
Packer: `Pack` / `Unpack` and the CompactSize varint codec.

A shallow embedding of `packer.go` and theorems about it.

Conventions of the embedding

* Bytes and the unsigned machine integers are natural numbers; the conversions
  of the source that truncate (`byte(x)`, `uint16(x)`, the `Put*` functions of
  `encoding/binary`) are written with explicit `%`.
* A Go value seen through `reflect` is a `Value`.  A struct is the list of its
  fields in declaration order, each field carrying the value of its `len` tag
  (the empty string when the tag is absent, which is what `Tag.Get` returns)
  and whether the field is exported.  A slice whose element type is not `byte`
  carries the zero value of its element type (what `reflect.MakeSlice` fills a
  new slice with) next to its elements.  Pointer and interface typed fields
  are not part of the embedding; `Value.other` stands for a field of any other
  kind that neither type switch handles (`int`, maps, arrays, named scalars).
* `int` is 64 bits wide.  `make` panics when the requested length is negative
  or does not fit an `int`.  The runtime also refuses a length above its
  allocation limit, which lies below that and is not part of the embedding: no
  general theorem concludes that `make` returned a buffer unless the length is
  bounded by data already in memory.
* The `io.Writer` is a `Sink` that logs the accepted `Write` calls and may be
  set to reject a call; the `io.Reader` is the list of bytes not yet read.
-/

namespace Packer

/-! ## Results -/

/-- Error values returned by the package, by `io.ReadFull`, by `strconv.Atoi`
and by the sink. -/
inductive Err where
  | mustBeStruct
  | cannotSet (i : Nat)
  | cannotConvert (i : Nat)
  | noTag
  | atoi (s : String)
  | eof
  | unexpectedEOF
  | writeFailed
  deriving DecidableEq, Repr

/-- How a call of `Pack` or `Unpack` ends: with a nil error, with an error
value, or with a run-time panic. -/
inductive Outcome where
  | ok
  | error (e : Err)
  | panic
  deriving DecidableEq, Repr

/-- Result of a helper that returns `(x, error)` and may also panic. -/
inductive Res (α : Type) where
  | ok (a : α)
  | error (e : Err)
  | panic
  deriving DecidableEq, Repr

/-! ## Values -/

/-- A Go value as the two type switches of `packer.go` classify it. -/
inductive Value where
  | u64 (dat : Nat)
  | u32 (dat : Nat)
  | u16 (dat : Nat)
  | byte (dat : Nat)
  | bool (dat : Bool)
  | bytes (dat : List Nat)
  | varint (dat : Nat)
  | str (dat : List Nat)
  | struct (fields : List (String × Bool × Value))
  | slice (elem : Value) (items : List Value)
  | other
  deriving Repr

/-- A struct field: the value of its `len` tag, whether it is exported, and its
value. -/
abbrev Field := String × Bool × Value

/-- The tag value `prefix`. -/
def prefixTag : String := "prefix"

/-- The tag value `lastnum`. -/
def lastnumTag : String := "lastnum"

/-! ## Library functions used by the source -/

/-- The functions `PutUint16`, `PutUint32`, `PutUint64` of
`binary.LittleEndian`: the `w` low bytes of `v`, least significant first. -/
def putLE : Nat → Nat → List Nat
  | 0, _ => []
  | w + 1, v => v % 256 :: putLE w (v / 256)

/-- The functions `Uint16`, `Uint32`, `Uint64` of `binary.LittleEndian`. -/
def getLE : List Nat → Nat
  | [] => 0
  | b :: bs => b + 256 * getLE bs

/-- The call `io.ReadFull(buf, b)` with `len(b) = n` on a reader holding `buf`:
the bytes read (or the error) and the bytes left in the reader.  A short
reader is drained and the error is `io.EOF` when nothing at all was read and
`io.ErrUnexpectedEOF` otherwise. -/
def readFull (buf : List Nat) (n : Nat) : Except Err (List Nat) × List Nat :=
  if n ≤ buf.length then (.ok (buf.take n), buf.drop n)
  else (.error (if buf.isEmpty then .eof else .unexpectedEOF), [])

/-- The builtin `copy(dst, src)`: the new contents of `dst`. -/
def copy (dst src : List Nat) : List Nat :=
  src.take dst.length ++ dst.drop src.length

/-- The conversion `int(val)` of a `uint64`. -/
def intOfUint64 (val : Nat) : Int :=
  if val < 2 ^ 63 then (val : Int) else (val : Int) - 2 ^ 64

/-- Accumulate decimal digits; `none` on a character that is not a digit. -/
def digitsToNat : List Char → Nat → Option Nat
  | [], acc => some acc
  | c :: cs, acc =>
    if 48 ≤ c.toNat ∧ c.toNat ≤ 57 then digitsToNat cs (acc * 10 + (c.toNat - 48))
    else none

/-- The function `strconv.Atoi`: an optional sign and at least one decimal
digit, the value within the range of `int`. -/
def atoi (s : String) : Except Err Int :=
  match s.toList with
  | [] => .error (.atoi s)
  | c :: cs =>
    let ds := if c = '-' ∨ c = '+' then cs else c :: cs
    if ds.isEmpty then .error (.atoi s)
    else
      match digitsToNat ds 0 with
      | none => .error (.atoi s)
      | some n =>
        if c = '-' then
          if n ≤ 2 ^ 63 then .ok (-(n : Int)) else .error (.atoi s)
        else
          if n < 2 ^ 63 then .ok (n : Int) else .error (.atoi s)

/-- An `io.Writer`: the `Write` calls accepted so far, oldest first, and how
many more calls are accepted before one is rejected (`none`: every call is
accepted, as for a `bytes.Buffer`). -/
structure Sink where
  chunks : List (List Nat)
  quota : Option Nat
  deriving DecidableEq, Repr

/-- The call `buf.Write(p)`; `none` when the sink rejects the call. -/
def Sink.write (buf : Sink) (p : List Nat) : Option Sink :=
  match buf.quota with
  | none => some ⟨buf.chunks ++ [p], none⟩
  | some 0 => none
  | some (k + 1) => some ⟨buf.chunks ++ [p], some k⟩

/-- The bytes a sink has accepted. -/
def Sink.bytes (buf : Sink) : List Nat := buf.chunks.flatten

/-- An empty `bytes.Buffer`. -/
def Sink.buffer : Sink := ⟨[], none⟩

/-! ## The varint codec -/

/-- The function `int2varint`. -/
def int2varint (dat : Nat) : List Nat :=
  if dat < 0xfd then [dat % 256]
  else if dat ≤ 0xffff then 0xfd :: putLE 2 (dat % 2 ^ 16)
  else if dat ≤ 0xffffffff then 0xfe :: putLE 4 (dat % 2 ^ 32)
  else 0xff :: putLE 8 dat

/-- The function `byte2varint`: the value (or the error) and the bytes left in
the reader. -/
def byte2varint (dat : List Nat) : Except Err Nat × List Nat :=
  match readFull dat 1 with
  | (.error e, r) => (.error e, r)
  | (.ok bb, r) =>
    if bb.headD 0 = 0xfd then
      match readFull r 2 with
      | (.error e, r2) => (.error e, r2)
      | (.ok bs, r2) => (.ok (getLE bs), r2)
    else if bb.headD 0 = 0xfe then
      match readFull r 4 with
      | (.error e, r2) => (.error e, r2)
      | (.ok bs, r2) => (.ok (getLE bs), r2)
    else if bb.headD 0 = 0xff then
      match readFull r 8 with
      | (.error e, r2) => (.error e, r2)
      | (.ok bs, r2) => (.ok (getLE bs), r2)
    else (.ok (bb.headD 0), r)

/-! ## Length resolution -/

/-- The function `getTagValue`. -/
def getTagValue (tag : String) (val : Nat) (buf : List Nat) : Except Err Int × List Nat :=
  if tag = lastnumTag then (.ok (intOfUint64 val), buf)
  else if tag = prefixTag then
    match byte2varint buf with
    | (.error e, r) => (.error e, r)
    | (.ok v, r) => (.ok (intOfUint64 v), r)
  else if tag = "" then (.error .noTag, buf)
  else (atoi tag, buf)

/-- The function `makeBytesFromTag`: a zeroed buffer of the resolved length. -/
def makeBytesFromTag (tag : String) (val : Nat) (buf : List Nat) : Res (List Nat) × List Nat :=
  match getTagValue tag val buf with
  | (.error e, r) => (.error e, r)
  | (.ok n, r) => if n < 0 then (.panic, r) else (.ok (List.replicate n.toNat 0), r)

/-- The function `makeBytesFromTagForPack`. -/
def makeBytesFromTagForPack (tag : String) (val : Nat) (dat : List Nat) : Res (List Nat) :=
  if tag = lastnumTag then
    if val < 2 ^ 63 then .ok (copy (List.replicate val 0) dat) else .panic
  else if tag = prefixTag then
    let ll := int2varint dat.length
    let b := copy (List.replicate (dat.length + ll.length) 0) ll
    .ok (b.take ll.length ++ copy (b.drop ll.length) dat)
  else if tag = "" then .error .noTag
  else
    match atoi tag with
    | .error e => .error e
    | .ok n => if n < 0 then .panic else .ok (copy (List.replicate n.toNat 0) dat)

/-- The function `makeValueFromTag`: the length of the slice `reflect.MakeSlice`
builds, every element of which is the zero value of the element type. -/
def makeValueFromTag (tag : String) (val : Nat) (buf : List Nat) : Res Nat × List Nat :=
  match getTagValue tag val buf with
  | (.error e, r) => (.error e, r)
  | (.ok n, r) => if n < 0 then (.panic, r) else (.ok n.toNat, r)

/-! ## Pack -/

/-- The end of the loop body of `Pack`: `result` is written unless it is nil. -/
def flush (buf : Sink) (val : Nat) (result : Option (List Nat)) : Sink × Nat × Outcome :=
  match result with
  | none => (buf, val, .ok)
  | some p =>
    match buf.write p with
    | none => (buf, val, .error .writeFailed)
    | some buf2 => (buf2, val, .ok)

mutual
/-- The function `Pack`, on the value that `reflect.Indirect` returns. -/
def Pack (buf : Sink) : Value → Sink × Outcome
  | .struct fields => packFields buf 0 0 fields
  | _ => (buf, .error .mustBeStruct)
/-- The loop of `Pack` from field `i` on, `val` being the last numeric value. -/
def packFields (buf : Sink) (val i : Nat) : List (String × Bool × Value) → Sink × Outcome
  | [] => (buf, .ok)
  | f :: rest =>
    match packField buf val i f with
    | (buf2, val2, .ok) => packFields buf2 val2 (i + 1) rest
    | (buf2, _, o) => (buf2, o)
/-- One turn of the loop of `Pack`, for field `i`: the sink, the last numeric
value and whether the loop goes on. -/
def packField (buf : Sink) (val i : Nat) : String × Bool × Value → Sink × Nat × Outcome
  | (_, false, _) => (buf, val, .panic)
  | (_, true, .u64 dat) => flush buf dat (some (putLE 8 dat))
  | (_, true, .u32 dat) => flush buf dat (some (putLE 4 dat))
  | (_, true, .u16 dat) => flush buf dat (some (putLE 2 dat))
  | (_, true, .byte dat) => flush buf dat (some [dat])
  | (_, true, .bool dat) => flush buf val (some (if dat then [1] else [0]))
  | (tag, true, .bytes dat) =>
    match makeBytesFromTagForPack tag val dat with
    | .error e => (buf, val, .error e)
    | .panic => (buf, val, .panic)
    | .ok result => flush buf val (some result)
  | (_, true, .varint dat) => flush buf dat (some (int2varint dat))
  | (_, true, .str dat) =>
    match buf.write (int2varint dat.length) with
    | none => (buf, val, .error .writeFailed)
    | some buf2 => flush buf2 val (some dat)
  | (_, true, .struct fields) =>
    match Pack buf (.struct fields) with
    | (buf2, .ok) => flush buf2 val none
    | (buf2, o) => (buf2, val, o)
  | (tag, true, .slice _ items) =>
    match (if tag = prefixTag then buf.write (int2varint items.length) else some buf) with
    | none => (buf, val, .error .writeFailed)
    | some buf2 =>
      match packElems buf2 items with
      | (buf3, .ok) => flush buf3 val none
      | (buf3, o) => (buf3, val, o)
  | (_, true, .other) => (buf, val, .error (.cannotConvert i))
/-- The inner loop of `Pack` over the elements of a slice. -/
def packElems (buf : Sink) : List Value → Sink × Outcome
  | [] => (buf, .ok)
  | v :: rest =>
    match Pack buf v with
    | (buf2, .ok) => packElems buf2 rest
    | (buf2, o) => (buf2, o)
end

/-! ## Unpack -/

/-- The loop `for ii := 0; ii < newv.Len(); ii++` of `Unpack` over a slice of
`n` fresh elements, `dec` decoding one fresh element. -/
def unpackElems (dec : List Nat → List Nat × Value × Outcome) :
    Nat → List Nat → List Nat × List Value × Outcome
  | 0, buf => (buf, [], .ok)
  | n + 1, buf =>
    match dec buf with
    | (r, v, .ok) =>
      match unpackElems dec n r with
      | (r2, vs, o) => (r2, v :: vs, o)
    | (r, _, o) => (r, [], o)

mutual
/-- The function `Unpack`, on the value its pointer argument points to: the
bytes left in the reader, the value afterwards, and the outcome. -/
def Unpack (buf : List Nat) : Value → List Nat × Value × Outcome
  | .struct fields =>
    match unpackFields buf 0 0 fields with
    | (r, fields2, o) => (r, .struct fields2, o)
  | v => (buf, v, .error .mustBeStruct)
/-- The loop of `Unpack` from field `i` on. -/
def unpackFields (buf : List Nat) (val i : Nat) :
    List (String × Bool × Value) → List Nat × List (String × Bool × Value) × Outcome
  | [] => (buf, [], .ok)
  | f :: rest =>
    match unpackField buf val i f with
    | (r, val2, v, .ok) =>
      match unpackFields r val2 (i + 1) rest with
      | (r2, rest2, o) => (r2, (f.1, f.2.1, v) :: rest2, o)
    | (r, _, v, o) => (r, (f.1, f.2.1, v) :: rest, o)
/-- One turn of the loop of `Unpack`, for field `i`: the reader, the last
numeric value, the value of the field afterwards, and whether the loop goes
on. -/
def unpackField (buf : List Nat) (val i : Nat) :
    String × Bool × Value → List Nat × Nat × Value × Outcome
  | (_, false, vi) => (buf, val, vi, .error (.cannotSet i))
  | (_, true, .u64 old) =>
    match readFull buf 8 with
    | (.error e, r) => (r, val, .u64 old, .error e)
    | (.ok b, r) => (r, getLE b, .u64 (getLE b), .ok)
  | (_, true, .u32 old) =>
    match readFull buf 4 with
    | (.error e, r) => (r, val, .u32 old, .error e)
    | (.ok b, r) => (r, getLE b, .u32 (getLE b), .ok)
  | (_, true, .u16 old) =>
    match readFull buf 2 with
    | (.error e, r) => (r, val, .u16 old, .error e)
    | (.ok b, r) => (r, getLE b, .u16 (getLE b), .ok)
  | (_, true, .bool old) =>
    match readFull buf 1 with
    | (.error e, r) => (r, val, .bool old, .error e)
    | (.ok bs, r) => (r, val, .bool (if bs.headD 0 = 0 then false else true), .ok)
  | (_, true, .byte old) =>
    match readFull buf 1 with
    | (.error e, r) => (r, val, .byte old, .error e)
    | (.ok bs, r) => (r, bs.headD 0, .byte (bs.headD 0), .ok)
  | (_, true, .varint old) =>
    match byte2varint buf with
    | (.error e, r) => (r, val, .varint old, .error e)
    | (.ok dat, r) => (r, dat, .varint dat, .ok)
  | (_, true, .str old) =>
    match byte2varint buf with
    | (.error e, r) => (r, val, .str old, .error e)
    | (.ok siz, r) =>
      if siz < 2 ^ 63 then
        match readFull r siz with
        | (.error e, r2) => (r2, val, .str old, .error e)
        | (.ok b, r2) => (r2, val, .str b, .ok)
      else (r, val, .str old, .panic)
  | (tag, true, .bytes old) =>
    match makeBytesFromTag tag val buf with
    | (.error e, r) => (r, val, .bytes old, .error e)
    | (.panic, r) => (r, val, .bytes old, .panic)
    | (.ok dat, r) =>
      match readFull r dat.length with
      | (.error e, r2) => (r2, val, .bytes old, .error e)
      | (.ok b, r2) => (r2, val, .bytes b, .ok)
  | (_, true, .struct fields) =>
    match Unpack buf (.struct fields) with
    | (r, v, o) => (r, val, v, o)
  | (tag, true, .slice elem old) =>
    match makeValueFromTag tag val buf with
    | (.error e, r) => (r, val, .slice elem old, .error e)
    | (.panic, r) => (r, val, .slice elem old, .panic)
    | (.ok n, r) =>
      match unpackElems (fun s => Unpack s elem) n r with
      | (r2, newv, .ok) => (r2, val, .slice elem newv, .ok)
      | (r2, _, o) => (r2, val, .slice elem old, o)
  | (_, true, .other) => (buf, val, .other, .error (.cannotConvert i))
end

/-! ## The test fixture -/

/-- The struct type `S3` of the test, holding `b`. -/
def S3 (b : Nat) : Value := .struct [("", true, .byte b)]

/-- The value `s1` of the test. -/
def s1 : Value :=
  .struct [
    ("", true, .u64 12345),
    ("", true, .u32 12345),
    ("", true, .byte 0x12),
    ("5", true, .bytes [0x12, 0x34, 0x45, 0x00, 0x00]),
    ("", true, .u16 6),
    ("lastnum", true, .bytes [0x67, 0x89, 0xab, 0xcd, 0x00, 0x00]),
    ("", true, .varint 0x23),
    ("", true, .varint 0x1234),
    ("", true, .varint 0x12345),
    ("", true, .varint 0x123456789),
    ("", true, .str [0x61, 0x62, 0x63, 0x64, 0x65]),
    ("", true, S3 0x12),
    ("2", true, .slice (S3 0) [S3 0x34, S3 0x35]),
    ("prefix", true, .slice (S3 0) [S3 0x21, S3 0x22])]

/-- The value `S1{}` that `TestUnpack1` decodes into. -/
def s2 : Value :=
  .struct [
    ("", true, .u64 0),
    ("", true, .u32 0),
    ("", true, .byte 0),
    ("5", true, .bytes []),
    ("", true, .u16 0),
    ("lastnum", true, .bytes []),
    ("", true, .varint 0),
    ("", true, .varint 0),
    ("", true, .varint 0),
    ("", true, .varint 0),
    ("", true, .str []),
    ("", true, S3 0),
    ("2", true, .slice (S3 0) []),
    ("prefix", true, .slice (S3 0) [])]

/-- The byte string `result` of the test. -/
def result : List Nat :=
  [0x39, 0x30, 0, 0, 0, 0, 0, 0,
   0x39, 0x30, 0, 0,
   0x12,
   0x12, 0x34, 0x45, 0x00, 0x00,
   0x06, 0x00,
   0x67, 0x89, 0xab, 0xcd, 0x00, 0x00,
   0x23,
   0xfd, 0x34, 0x12,
   0xfe, 0x45, 0x23, 0x01, 0x00,
   0xff, 0x89, 0x67, 0x45, 0x23, 0x01, 0x00, 0x00, 0x00,
   0x05,
   0x61, 0x62, 0x63, 0x64, 0x65,
   0x12,
   0x34,
   0x35,
   0x02, 0x21, 0x22]

/-! ## The wire format as the specification words it -/

/-- Little-endian bytes as the specification words them: byte `k` of the `w`
bytes is `v / 256 ^ k % 256`. -/
def leBytes (w v : Nat) : List Nat :=
  (List.range w).map (fun k => v / 256 ^ k % 256)

/-- The CompactSize table of the specification. -/
def compactSize (v : Nat) : List Nat :=
  if v ≤ 0xFC then [v]
  else if v ≤ 0xFFFF then 0xFD :: leBytes 2 v
  else if v ≤ 0xFFFFFFFF then 0xFE :: leBytes 4 v
  else 0xFF :: leBytes 8 v

/-- The number of bytes a varint occupies, by its first byte. -/
def varintWidth (b : Nat) : Nat :=
  if b = 0xFD then 3 else if b = 0xFE then 5 else if b = 0xFF then 9 else 1

/-- A byte stream is too short for the varint its first byte announces: it is
empty, or its first byte is `0xFD`, `0xFE` or `0xFF` and fewer than 2, 4 or 8
further bytes follow. -/
def varintTruncated (s : List Nat) : Prop :=
  s = [] ∨ (s.headD 0 = 0xFD ∧ s.length - 1 < 2) ∨ (s.headD 0 = 0xFE ∧ s.length - 1 < 4)
    ∨ (s.headD 0 = 0xFF ∧ s.length - 1 < 8)

/-- An end-of-input error of `io.ReadFull`. -/
def Err.isEOF : Err → Prop
  | .eof => True
  | .unexpectedEOF => True
  | _ => False

/-- An outcome is an end-of-input error of `io.ReadFull`. -/
def Outcome.isEOF : Outcome → Prop
  | .error e => e.isEOF
  | _ => False

/-- The last numeric value after a field holding `v`, `val` being the one before
it: the fixed-width integers, `byte` and `VarInt` set it. -/
def register (val : Nat) : Value → Nat
  | .u64 dat => dat
  | .u32 dat => dat
  | .u16 dat => dat
  | .byte dat => dat
  | .varint dat => dat
  | _ => val

/-- The length policy of the specification. -/
inductive Policy where
  | fixed (n : Nat)
  | prefixed
  | carryOver
  deriving DecidableEq, Repr

/-- The policy a `len` tag denotes, if any: `prefix`, `lastnum`, or a decimal
literal that is not negative. -/
def policyOf (tag : String) : Option Policy :=
  if tag = lastnumTag then some .carryOver
  else if tag = prefixTag then some .prefixed
  else
    match atoi tag with
    | .ok n => if n < 0 then none else some (.fixed n.toNat)
    | .error _ => none

/-- Data `d` cut or zero-padded to exactly `n` bytes. -/
def padTo (n : Nat) (d : List Nat) : List Nat :=
  d.take n ++ List.replicate (n - min n d.length) 0

mutual
/-- The zero value of the type of a value.  The element representative of a
slice stands for its element type and is kept. -/
def zero : Value → Value
  | .u64 _ => .u64 0
  | .u32 _ => .u32 0
  | .u16 _ => .u16 0
  | .byte _ => .byte 0
  | .bool _ => .bool false
  | .bytes _ => .bytes []
  | .varint _ => .varint 0
  | .str _ => .str []
  | .struct fields => .struct (zeroFields fields)
  | .slice elem _ => .slice elem []
  | .other => .other
/-- The zero values of the fields of a struct type. -/
def zeroFields : List (String × Bool × Value) → List (String × Bool × Value)
  | [] => []
  | (tag, exported, v) :: rest => (tag, exported, zero v) :: zeroFields rest
end

/-- The number of elements a sequence field holds agrees with its length
policy: any count under `prefix`, the last numeric value under `lastnum`, the
literal under a decimal tag; and it is a length a Go slice can have. -/
def lengthOk (tag : String) (val n : Nat) : Prop :=
  n < 2 ^ 63 ∧
    (policyOf tag = some .prefixed ∨ (policyOf tag = some .carryOver ∧ n = val)
      ∨ policyOf tag = some (.fixed n))

mutual
/-- A well-formed record: a struct whose fields are well formed. -/
def WellFormed : Value → Prop
  | .struct fields => wfFields 0 fields
  | _ => False
/-- The fields of a record are well formed, `val` being the last numeric value
before them. -/
def wfFields (val : Nat) : List (String × Bool × Value) → Prop
  | [] => True
  | f :: rest => wfField val f ∧ wfFields (register val f.2.2) rest
/-- A well-formed field: exported, of a recognised category, the integers within
the range of their type, a sequence as long as its length policy says, and the
elements of a record sequence well-formed records of the element type. -/
def wfField (val : Nat) : String × Bool × Value → Prop
  | (_, false, _) => False
  | (_, true, .u64 dat) => dat < 2 ^ 64
  | (_, true, .u32 dat) => dat < 2 ^ 32
  | (_, true, .u16 dat) => dat < 2 ^ 16
  | (_, true, .byte dat) => dat < 2 ^ 8
  | (_, true, .bool _) => True
  | (tag, true, .bytes dat) => lengthOk tag val dat.length
  | (_, true, .varint dat) => dat < 2 ^ 64
  | (_, true, .str dat) => dat.length < 2 ^ 63
  | (_, true, .struct fields) => WellFormed (.struct fields)
  | (tag, true, .slice elem items) => lengthOk tag val items.length ∧ wfElems elem items
  | (_, true, .other) => False
/-- The elements of a record sequence are well-formed records of the type of
`elem`. -/
def wfElems (elem : Value) : List Value → Prop
  | [] => True
  | v :: rest => (WellFormed v ∧ zero v = zero elem) ∧ wfElems elem rest
end

mutual
/-- The wire form of a record as the specification words it: the encodings of
its fields in declaration order, nothing before, between or after them. -/
def wire : Value → List Nat
  | .struct fields => wireFields 0 fields
  | _ => []
/-- The wire forms of the fields from one field on, concatenated. -/
def wireFields (val : Nat) : List (String × Bool × Value) → List Nat
  | [] => []
  | f :: rest => wireField val f ++ wireFields (register val f.2.2) rest
/-- The wire form of one field: little-endian fixed-width integers, one byte for
a bool, CompactSize for a varint, a varint byte length and the raw bytes for a
string, a byte sequence by its length policy, a nested record as its own wire
form, a record sequence as its elements preceded by their count when the
policy is prefixed. -/
def wireField (val : Nat) : String × Bool × Value → List Nat
  | (_, _, .u64 dat) => leBytes 8 dat
  | (_, _, .u32 dat) => leBytes 4 dat
  | (_, _, .u16 dat) => leBytes 2 dat
  | (_, _, .byte dat) => [dat]
  | (_, _, .bool dat) => [if dat then 1 else 0]
  | (tag, _, .bytes dat) =>
    match policyOf tag with
    | some .prefixed => compactSize dat.length ++ dat
    | some .carryOver => padTo val dat
    | some (.fixed n) => padTo n dat
    | none => []
  | (_, _, .varint dat) => compactSize dat
  | (_, _, .str dat) => compactSize dat.length ++ dat
  | (_, _, .struct fields) => wire (.struct fields)
  | (tag, _, .slice _ items) =>
    (if policyOf tag = some .prefixed then compactSize items.length else []) ++ wireElems items
  | (_, _, .other) => []
/-- The wire forms of the elements of a record sequence, concatenated. -/
def wireElems : List Value → List Nat
  | [] => []
  | v :: rest => wire v ++ wireElems rest
end

/-- The categories that set the last numeric value: the fixed-width integers,
`byte` and `VarInt`. -/
def isNumeric : Value → Bool
  | .u64 _ => true
  | .u32 _ => true
  | .u16 _ => true
  | .byte _ => true
  | .varint _ => true
  | _ => false

/-- The value of the most recent numeric field among `fields`, and `val` when
none of them is numeric. -/
def lastNumericFrom (val : Nat) (fields : List (String × Bool × Value)) : Nat :=
  match fields.reverse.find? (fun f => isNumeric f.2.2) with
  | some f => register val f.2.2
  | none => val

/-- The value of the most recent numeric field among `fields`, 0 if there is
none: what the specification calls the last numeric value after them. -/
def lastNumeric (fields : List (String × Bool × Value)) : Nat :=
  lastNumericFrom 0 fields

/-- What a run that would issue the write calls `ws` and end with `o` leaves
behind on a sink holding `cs` that accepts `k` more calls and rejects the next:
all of `ws` and `o` when `k` calls suffice, and otherwise the first `k` calls
and the error of the sink. -/
def cutAt (cs ws : List (List Nat)) (o : Outcome) (k : Nat) : Sink × Outcome :=
  if ws.length ≤ k then (⟨cs ++ ws, some (k - ws.length)⟩, o)
  else (⟨cs ++ ws.take k, some 0⟩, .error .writeFailed)

/-- On a sink holding `cs` that accepts every call, `run` issues the write calls
`ws` and ends with `o`; on a sink that accepts only `k` more calls it leaves
`cutAt cs ws o k`. -/
def HasCut (run : Sink → Sink × Outcome) (cs ws : List (List Nat)) (o : Outcome) : Prop :=
  run ⟨cs, none⟩ = (⟨cs ++ ws, none⟩, o) ∧ ∀ k, run ⟨cs, some k⟩ = cutAt cs ws o k

/-! ## Little-endian bytes and `io.ReadFull` -/

theorem putLE_length (w v : Nat) : (putLE w v).length = w := by
  induction w generalizing v with
  | zero => rfl
  | succ w ih => simp [putLE, ih]

theorem getLE_putLE (w v : Nat) (h : v < 256 ^ w) : getLE (putLE w v) = v := by
  induction w generalizing v with
  | zero => simp at h; simp [putLE, getLE, h]
  | succ w ih =>
    have h2 : v / 256 < 256 ^ w := by
      rw [Nat.div_lt_iff_lt_mul (by norm_num)]
      calc v < 256 ^ (w + 1) := h
        _ = 256 ^ w * 256 := by ring
    simp only [putLE, getLE, ih _ h2]
    omega

theorem putLE_eq_leBytes (w v : Nat) : putLE w v = leBytes w v := by
  induction w generalizing v with
  | zero => rfl
  | succ w ih =>
    simp only [putLE, leBytes, List.range_succ_eq_map, List.map_cons, List.map_map, pow_zero,
      Nat.div_one, ih]
    congr 1
    apply List.map_congr_left
    intro k _
    simp only [Function.comp, pow_succ, Nat.div_div_eq_div_mul]
    rw [Nat.mul_comm]

theorem readFull_append (a t : List Nat) : readFull (a ++ t) a.length = (.ok a, t) := by
  simp [readFull]

theorem readFull_append_of_length (a t : List Nat) (n : Nat) (h : a.length = n) :
    readFull (a ++ t) n = (.ok a, t) := by
  subst h; exact readFull_append a t

theorem readFull_short (p : List Nat) (n : Nat) (h : p.length < n) :
    ∃ e, readFull p n = (.error e, []) ∧ e.isEOF := by
  have hn : ¬ n ≤ p.length := by omega
  unfold readFull
  rw [if_neg hn]
  cases p with
  | nil => exact ⟨.eof, rfl, trivial⟩
  | cons b bs => exact ⟨.unexpectedEOF, rfl, trivial⟩

theorem readFull_one_cons (b : Nat) (r : List Nat) : readFull (b :: r) 1 = (.ok [b], r) := by
  simp [readFull]

/-! ## The varint codec -/

theorem int2varint_eq_compactSize (v : Nat) : int2varint v = compactSize v := by
  unfold int2varint compactSize
  by_cases h1 : v < 0xfd
  · have h1b : v ≤ 0xFC := by omega
    have : v % 256 = v := Nat.mod_eq_of_lt (by omega)
    simp [h1, h1b, this]
  · have h1b : ¬ v ≤ 0xFC := by omega
    simp only [h1, h1b, if_false]
    by_cases h2 : v ≤ 0xffff
    · have : v % 65536 = v := Nat.mod_eq_of_lt (by omega)
      simp [h2, this, putLE_eq_leBytes]
    · simp only [h2, if_false]
      by_cases h3 : v ≤ 0xffffffff
      · have : v % 4294967296 = v := Nat.mod_eq_of_lt (by omega)
        simp [h3, this, putLE_eq_leBytes]
      · simp [h3, putLE_eq_leBytes]

theorem varint_decode_encode_append (v : Nat) (h : v < 2 ^ 64) (t : List Nat) :
    byte2varint (int2varint v ++ t) = (.ok v, t) := by
  unfold int2varint
  by_cases h1 : v < 0xfd
  · have hm : v % 256 = v := Nat.mod_eq_of_lt (by omega)
    have a1 : ¬ v = 0xfd := by omega
    have a2 : ¬ v = 0xfe := by omega
    have a3 : ¬ v = 0xff := by omega
    simp [h1, hm, byte2varint, readFull_one_cons, a1, a2, a3]
  · simp only [h1, if_false]
    by_cases h2 : v ≤ 0xffff
    · have hm : v % 2 ^ 16 = v := Nat.mod_eq_of_lt (by omega)
      have hr : readFull (putLE 2 v ++ t) 2 = (.ok (putLE 2 v), t) :=
        readFull_append_of_length _ _ _ (putLE_length 2 v)
      have hg : getLE (putLE 2 v) = v := getLE_putLE 2 v (by norm_num; omega)
      simp only [h2, if_true, hm, byte2varint, List.cons_append, readFull_one_cons,
        List.headD_cons, hr, hg]
    · simp only [h2, if_false]
      by_cases h3 : v ≤ 0xffffffff
      · have hm : v % 2 ^ 32 = v := Nat.mod_eq_of_lt (by omega)
        have hr : readFull (putLE 4 v ++ t) 4 = (.ok (putLE 4 v), t) :=
          readFull_append_of_length _ _ _ (putLE_length 4 v)
        have hg : getLE (putLE 4 v) = v := getLE_putLE 4 v (by norm_num; omega)
        simp only [h3, if_true, hm, byte2varint, List.cons_append, readFull_one_cons,
          List.headD_cons, hr, hg]
        simp
      · have hr : readFull (putLE 8 v ++ t) 8 = (.ok (putLE 8 v), t) :=
          readFull_append_of_length _ _ _ (putLE_length 8 v)
        have hg : getLE (putLE 8 v) = v := getLE_putLE 8 v (by norm_num; omega)
        simp only [h3, if_false, byte2varint, List.cons_append, readFull_one_cons,
          List.headD_cons, hr, hg]
        simp

theorem byte2varint_nil : byte2varint [] = (.error .eof, []) := rfl

theorem byte2varint_cons (b : Nat) (r : List Nat) :
    byte2varint (b :: r) =
      if b = 0xfd then
        (if 2 ≤ r.length then (.ok (getLE (r.take 2)), r.drop 2)
         else (.error (if r.isEmpty then .eof else .unexpectedEOF), []))
      else if b = 0xfe then
        (if 4 ≤ r.length then (.ok (getLE (r.take 4)), r.drop 4)
         else (.error (if r.isEmpty then .eof else .unexpectedEOF), []))
      else if b = 0xff then
        (if 8 ≤ r.length then (.ok (getLE (r.take 8)), r.drop 8)
         else (.error (if r.isEmpty then .eof else .unexpectedEOF), []))
      else (.ok b, r) := by
  rw [byte2varint, readFull_one_cons]
  simp only [List.headD_cons]
  unfold readFull
  split_ifs <;> rfl

/-- C3. Varint round trip: for every unsigned 64-bit value `v`, `byte2varint` on a
source holding `int2varint v` returns `v` with a nil error, and the source is
then empty. -/
theorem byte2varint_int2varint (v : Nat) (h : v < 2 ^ 64) :
    byte2varint (int2varint v) = (.ok v, []) := by
  have := varint_decode_encode_append v h []
  simpa using this

theorem byte2varint_int2varint_witness :
    (0x123456789 : Nat) < 2 ^ 64 ∧ byte2varint (int2varint 0x123456789) = (.ok 0x123456789, []) :=
  ⟨by decide, byte2varint_int2varint 0x123456789 (by decide)⟩

/-- C4. Varint encoding table: `int2varint v` is the CompactSize form of `v`, that
is the single byte `v` up to `0xFC`, `0xFD` and 2 little-endian bytes up to
`0xFFFF`, `0xFE` and 4 little-endian bytes up to `0xFFFFFFFF`, and `0xFF` and 8
little-endian bytes above; with the five boundary encodings of the
specification. -/
theorem int2varint_table (v : Nat) :
    int2varint v = compactSize v
    ∧ int2varint 0xFC = [0xFC]
    ∧ int2varint 0xFD = [0xFD, 0xFD, 0x00]
    ∧ int2varint 0xFFFF = [0xFD, 0xFF, 0xFF]
    ∧ int2varint 0x10000 = [0xFE, 0x00, 0x00, 0x01, 0x00]
    ∧ int2varint 0x100000000 = [0xFF, 0x00, 0x00, 0x00, 0x00, 0x01, 0x00, 0x00, 0x00] :=
  ⟨int2varint_eq_compactSize v, by decide, by decide, by decide, by decide, by decide⟩

/-- C5. Varint decoding fails exactly on truncation: `byte2varint` returns an error
if and only if the stream is empty or its first byte is `0xFD`, `0xFE`, `0xFF`
and fewer than 2, 4, 8 further bytes are available; otherwise it succeeds and
leaves unread exactly what follows the first 1, 3, 5 or 9 bytes. -/
theorem byte2varint_error_iff_truncated (s : List Nat) :
    ((∃ e, (byte2varint s).1 = .error e) ↔ varintTruncated s)
    ∧ (¬ varintTruncated s →
        ∃ v, byte2varint s = (.ok v, s.drop (varintWidth (s.headD 0)))) := by
  cases s with
  | nil => simp [byte2varint_nil, varintTruncated]
  | cons b r =>
    rw [byte2varint_cons]
    simp only [varintTruncated, varintWidth, List.headD_cons, List.length_cons,
      Nat.add_sub_cancel, reduceCtorEq, false_or]
    by_cases h1 : b = 0xfd
    · subst h1
      by_cases h : 2 ≤ r.length
      · have h2 : ¬ r.length < 2 := by omega
        simp [h, h2]
      · have h2 : r.length < 2 := by omega
        simp [h, h2]
    · by_cases h2 : b = 0xfe
      · subst h2
        by_cases h : 4 ≤ r.length
        · have h2 : ¬ r.length < 4 := by omega
          simp [h, h2]
        · have h2 : r.length < 4 := by omega
          simp [h, h2]
      · by_cases h3 : b = 0xff
        · subst h3
          by_cases h : 8 ≤ r.length
          · have h2 : ¬ r.length < 8 := by omega
            simp [h, h2]
          · have h2 : r.length < 8 := by omega
            simp [h, h2]
        · simp [h1, h2, h3]

/-! ## Sinks, `copy` and the length policies -/

theorem Sink.write_bytes (buf buf2 : Sink) (p : List Nat) (h : buf.write p = some buf2) :
    buf2.bytes = buf.bytes ++ p := by
  unfold Sink.write at h
  cases hq : buf.quota with
  | none => rw [hq] at h; cases h; simp [Sink.bytes]
  | some k =>
    rw [hq] at h
    cases k with
    | zero => simp at h
    | succ k => simp only [Option.some.injEq] at h; subst h; simp [Sink.bytes]

theorem flush_some_bytes (buf buf2 : Sink) (val val2 : Nat) (p : List Nat)
    (h : flush buf val (some p) = (buf2, val2, .ok)) :
    buf2.bytes = buf.bytes ++ p ∧ val2 = val := by
  simp only [flush] at h
  cases hw : buf.write p with
  | none => rw [hw] at h; simp at h
  | some b =>
    rw [hw] at h
    simp only [Prod.mk.injEq, and_true] at h
    obtain ⟨h1, h2⟩ := h
    subst h1
    exact ⟨Sink.write_bytes _ _ _ hw, h2.symm⟩

theorem copy_replicate (n : Nat) (dat : List Nat) :
    copy (List.replicate n 0) dat = padTo n dat := by
  unfold copy padTo
  simp only [List.length_replicate, List.drop_replicate]
  congr 2
  omega

theorem copy_prefixed (ll dat : List Nat) :
    (copy (List.replicate (dat.length + ll.length) 0) ll).take ll.length
      ++ copy ((copy (List.replicate (dat.length + ll.length) 0) ll).drop ll.length) dat
      = ll ++ dat := by
  have h1 : copy (List.replicate (dat.length + ll.length) 0) ll
      = ll ++ List.replicate dat.length 0 := by
    unfold copy
    simp only [List.length_replicate, List.drop_replicate, Nat.add_sub_cancel]
    rw [List.take_of_length_le (by omega)]
  rw [h1, List.take_left, List.drop_left]
  unfold copy
  simp

theorem lastnumTag_ne_prefixTag : lastnumTag ≠ prefixTag := by decide

theorem prefixTag_ne_lastnumTag : prefixTag ≠ lastnumTag := by decide

theorem empty_ne_lastnumTag : "" ≠ lastnumTag := by decide

theorem empty_ne_prefixTag : "" ≠ prefixTag := by decide

theorem atoi_empty : atoi "" = .error (.atoi "") := by rfl

theorem policyOf_carryOver (tag : String) : policyOf tag = some .carryOver ↔ tag = lastnumTag := by
  unfold policyOf
  by_cases h1 : tag = lastnumTag
  · simp [h1]
  · by_cases h2 : tag = prefixTag
    · simp [h1, h2]
    · simp only [h1, h2, if_false, iff_false]
      cases atoi tag with
      | error e => simp
      | ok n => by_cases hn : n < 0 <;> simp [hn]

theorem policyOf_prefixed (tag : String) : policyOf tag = some .prefixed ↔ tag = prefixTag := by
  unfold policyOf
  by_cases h1 : tag = lastnumTag
  · subst h1
    simp [lastnumTag_ne_prefixTag]
  · by_cases h2 : tag = prefixTag
    · subst h2
      simp [prefixTag_ne_lastnumTag]
    · simp only [h1, h2, if_false, iff_false]
      cases atoi tag with
      | error e => simp
      | ok n => by_cases hn : n < 0 <;> simp [hn]

theorem policyOf_fixed (tag : String) (n : Nat) :
    policyOf tag = some (.fixed n) ↔
      tag ≠ lastnumTag ∧ tag ≠ prefixTag ∧ tag ≠ "" ∧ atoi tag = .ok (n : Int) := by
  unfold policyOf
  by_cases h1 : tag = lastnumTag
  · simp [h1]
  · by_cases h2 : tag = prefixTag
    · subst h2
      simp [prefixTag_ne_lastnumTag]
    · by_cases h3 : tag = ""
      · subst h3
        simp [atoi_empty, empty_ne_lastnumTag, empty_ne_prefixTag]
      · simp only [h1, h2, h3, if_false, ne_eq, not_false_eq_true, true_and]
        cases atoi tag with
        | error e => simp
        | ok m =>
          by_cases hm : m < 0
          · simp only [hm, if_true, Except.ok.injEq, reduceCtorEq, false_iff]
            omega
          · simp only [hm, if_false, Option.some.injEq, Policy.fixed.injEq, Except.ok.injEq]
            omega

theorem makeBytesFromTagForPack_wire (tag : String) (exported : Bool) (val : Nat)
    (dat r : List Nat) (h : makeBytesFromTagForPack tag val dat = .ok r) :
    r = wireField val (tag, exported, .bytes dat) := by
  unfold makeBytesFromTagForPack at h
  rw [wireField]
  by_cases h1 : tag = lastnumTag
  · have hp := (policyOf_carryOver tag).2 h1
    rw [hp]
    rw [if_pos h1] at h
    split_ifs at h with hv
    simp only [Res.ok.injEq] at h
    rw [← h, copy_replicate]
  · by_cases h2 : tag = prefixTag
    · have hp := (policyOf_prefixed tag).2 h2
      rw [hp]
      rw [if_neg h1, if_pos h2] at h
      simp only [Res.ok.injEq] at h
      rw [← h, copy_prefixed, int2varint_eq_compactSize]
    · by_cases h3 : tag = ""
      · rw [if_neg h1, if_neg h2, if_pos h3] at h
        cases h
      · rw [if_neg h1, if_neg h2, if_neg h3] at h
        cases ha : atoi tag with
        | error e => rw [ha] at h; simp at h
        | ok n =>
          rw [ha] at h
          by_cases hn : n < 0
          · simp [hn] at h
          · simp only [hn, if_false, Res.ok.injEq] at h
            have hp : policyOf tag = some (.fixed n.toNat) := by
              rw [policyOf_fixed]
              refine ⟨h1, h2, h3, ?_⟩
              rw [ha, Int.toNat_of_nonneg (by omega)]
            rw [hp]
            simp only
            rw [← h, copy_replicate]

/-! ## The bytes `Pack` writes -/

mutual
theorem Pack_wire : ∀ (v : Value) (buf buf2 : Sink),
    Pack buf v = (buf2, .ok) → buf2.bytes = buf.bytes ++ wire v
  | .struct fields, buf, buf2, h => by
    rw [Pack] at h
    rw [wire]
    exact packFields_wire fields buf 0 0 buf2 h
  | .u64 _, _, _, h | .u32 _, _, _, h | .u16 _, _, _, h | .byte _, _, _, h
  | .bool _, _, _, h | .bytes _, _, _, h | .varint _, _, _, h | .str _, _, _, h
  | .slice _ _, _, _, h | .other, _, _, h => by
    simp [Pack] at h
theorem packFields_wire : ∀ (fs : List (String × Bool × Value)) (buf : Sink) (val i : Nat)
    (buf2 : Sink), packFields buf val i fs = (buf2, .ok) →
    buf2.bytes = buf.bytes ++ wireFields val fs
  | [], buf, val, i, buf2, h => by
    simp only [packFields, Prod.mk.injEq, and_true] at h
    simp [wireFields, h]
  | f :: rest, buf, val, i, buf2, h => by
    rw [packFields] at h
    rcases hf : packField buf val i f with ⟨b1, v1, o1⟩
    rw [hf] at h
    cases o1 with
    | ok =>
      simp only at h
      obtain ⟨hb, hv⟩ := packField_wire f buf val i b1 v1 hf
      have := packFields_wire rest b1 v1 (i + 1) buf2 h
      rw [this, hb, hv, wireFields, List.append_assoc]
    | error e => simp at h
    | panic => simp at h
theorem packField_wire : ∀ (f : String × Bool × Value) (buf : Sink) (val i : Nat)
    (buf2 : Sink) (val2 : Nat), packField buf val i f = (buf2, val2, .ok) →
    buf2.bytes = buf.bytes ++ wireField val f ∧ val2 = register val f.2.2
  | (_, false, _), buf, val, i, buf2, val2, h => by simp [packField] at h
  | (_, true, .u64 dat), buf, val, i, buf2, val2, h => by
    rw [packField] at h
    have := flush_some_bytes _ _ _ _ _ h
    simpa [wireField, register, putLE_eq_leBytes] using this
  | (_, true, .u32 dat), buf, val, i, buf2, val2, h => by
    rw [packField] at h
    have := flush_some_bytes _ _ _ _ _ h
    simpa [wireField, register, putLE_eq_leBytes] using this
  | (_, true, .u16 dat), buf, val, i, buf2, val2, h => by
    rw [packField] at h
    have := flush_some_bytes _ _ _ _ _ h
    simpa [wireField, register, putLE_eq_leBytes] using this
  | (_, true, .byte dat), buf, val, i, buf2, val2, h => by
    rw [packField] at h
    have := flush_some_bytes _ _ _ _ _ h
    simpa [wireField, register] using this
  | (_, true, .bool dat), buf, val, i, buf2, val2, h => by
    rw [packField] at h
    have := flush_some_bytes _ _ _ _ _ h
    cases dat <;> simpa [wireField, register] using this
  | (tag, true, .bytes dat), buf, val, i, buf2, val2, h => by
    rw [packField] at h
    cases hm : makeBytesFromTagForPack tag val dat with
    | error e => rw [hm] at h; simp at h
    | panic => rw [hm] at h; simp at h
    | ok r =>
      rw [hm] at h
      have := flush_some_bytes _ _ _ _ _ h
      rw [makeBytesFromTagForPack_wire tag true val dat r hm] at this
      simpa [register] using this
  | (_, true, .varint dat), buf, val, i, buf2, val2, h => by
    rw [packField] at h
    have := flush_some_bytes _ _ _ _ _ h
    simpa [wireField, register, int2varint_eq_compactSize] using this
  | (_, true, .str dat), buf, val, i, buf2, val2, h => by
    rw [packField] at h
    cases hw : buf.write (int2varint dat.length) with
    | none => rw [hw] at h; simp at h
    | some b1 =>
      rw [hw] at h
      have h1 := Sink.write_bytes _ _ _ hw
      have h2 := flush_some_bytes _ _ _ _ _ h
      rw [h1] at h2
      simpa [wireField, register, int2varint_eq_compactSize] using h2
  | (_, true, .struct fields), buf, val, i, buf2, val2, h => by
    rw [packField] at h
    rcases hp : Pack buf (.struct fields) with ⟨b1, o1⟩
    rw [hp] at h
    cases o1 with
    | ok =>
      simp only [flush, Prod.mk.injEq, and_true] at h
      obtain ⟨h1, h2⟩ := h
      subst h1
      have := Pack_wire (.struct fields) buf b1 hp
      simp [wireField, register, this, h2]
    | error e => simp at h
    | panic => simp at h
  | (tag, true, .slice _ items), buf, val, i, buf2, val2, h => by
    rw [packField] at h
    by_cases ht : tag = prefixTag
    · have hpol := (policyOf_prefixed tag).2 ht
      simp only [ht, if_true] at h
      cases hw : buf.write (int2varint items.length) with
      | none => rw [hw] at h; simp at h
      | some b1 =>
        rw [hw] at h
        have h1 := Sink.write_bytes _ _ _ hw
        rcases hp : packElems b1 items with ⟨b2, o2⟩
        simp only [hp] at h
        cases o2 with
        | ok =>
          simp only [flush, Prod.mk.injEq, and_true] at h
          obtain ⟨h3, h4⟩ := h
          subst h3
          have := packElems_wire items b1 b2 hp
          simp [wireField, register, this, h1, h4, hpol, int2varint_eq_compactSize]
        | error e => simp at h
        | panic => simp at h
    · have hpol : ¬ policyOf tag = some .prefixed := fun hc => ht ((policyOf_prefixed tag).1 hc)
      simp only [ht, if_false] at h
      rcases hp : packElems buf items with ⟨b2, o2⟩
      simp only [hp] at h
      cases o2 with
      | ok =>
        simp only [flush, Prod.mk.injEq, and_true] at h
        obtain ⟨h3, h4⟩ := h
        subst h3
        have := packElems_wire items buf b2 hp
        simp [wireField, register, this, h4, hpol]
      | error e => simp at h
      | panic => simp at h
  | (_, true, .other), buf, val, i, buf2, val2, h => by simp [packField] at h
theorem packElems_wire : ∀ (vs : List Value) (buf buf2 : Sink),
    packElems buf vs = (buf2, .ok) → buf2.bytes = buf.bytes ++ wireElems vs
  | [], buf, buf2, h => by
    simp only [packElems, Prod.mk.injEq, and_true] at h
    simp [wireElems, h]
  | v :: rest, buf, buf2, h => by
    rw [packElems] at h
    rcases hp : Pack buf v with ⟨b1, o1⟩
    rw [hp] at h
    cases o1 with
    | ok =>
      simp only at h
      have h1 := Pack_wire v buf b1 hp
      have h2 := packElems_wire rest b1 buf2 h
      rw [h2, h1, wireElems, List.append_assoc]
    | error e => simp at h
    | panic => simp at h
end

/-! ## `Pack` succeeds on a well-formed record -/

theorem Sink.write_of_quota_none (buf : Sink) (p : List Nat) (h : buf.quota = none) :
    buf.write p = some ⟨buf.chunks ++ [p], none⟩ := by
  unfold Sink.write
  rw [h]

theorem flush_of_quota_none (buf : Sink) (val : Nat) (p : List Nat) (h : buf.quota = none) :
    ∃ buf2, flush buf val (some p) = (buf2, val, .ok) ∧ buf2.quota = none := by
  refine ⟨⟨buf.chunks ++ [p], none⟩, ?_, rfl⟩
  simp only [flush, Sink.write_of_quota_none buf p h]

theorem intOfUint64_of_lt (n : Nat) (h : n < 2 ^ 63) : intOfUint64 n = (n : Int) := by
  unfold intOfUint64
  rw [if_pos h]

theorem makeBytesFromTagForPack_ok (tag : String) (val : Nat) (dat : List Nat)
    (h : lengthOk tag val dat.length) : ∃ r, makeBytesFromTagForPack tag val dat = .ok r := by
  obtain ⟨hn, hp | ⟨hp, hv⟩ | hp⟩ := h
  · have ht := (policyOf_prefixed tag).1 hp
    subst ht
    unfold makeBytesFromTagForPack
    rw [if_neg prefixTag_ne_lastnumTag, if_pos rfl]
    exact ⟨_, rfl⟩
  · have ht := (policyOf_carryOver tag).1 hp
    subst ht
    unfold makeBytesFromTagForPack
    rw [if_pos rfl, if_pos (hv ▸ hn)]
    exact ⟨_, rfl⟩
  · obtain ⟨h1, h2, h3, h4⟩ := (policyOf_fixed tag _).1 hp
    unfold makeBytesFromTagForPack
    rw [if_neg h1, if_neg h2, if_neg h3, h4]
    have : ¬ ((dat.length : Int) < 0) := by omega
    simp only [this, if_false]
    exact ⟨_, rfl⟩

mutual
theorem Pack_ok : ∀ (v : Value), WellFormed v → ∀ (buf : Sink), buf.quota = none →
    ∃ buf2, Pack buf v = (buf2, .ok) ∧ buf2.quota = none
  | .struct fields, hw, buf, hq => by
    rw [WellFormed] at hw
    rw [Pack]
    exact packFields_ok fields 0 hw buf 0 hq
  | .u64 _, hw, _, _ | .u32 _, hw, _, _ | .u16 _, hw, _, _ | .byte _, hw, _, _
  | .bool _, hw, _, _ | .bytes _, hw, _, _ | .varint _, hw, _, _ | .str _, hw, _, _
  | .slice _ _, hw, _, _ | .other, hw, _, _ => by
    simp [WellFormed] at hw
theorem packFields_ok : ∀ (fs : List (String × Bool × Value)) (val : Nat), wfFields val fs →
    ∀ (buf : Sink) (i : Nat), buf.quota = none →
    ∃ buf2, packFields buf val i fs = (buf2, .ok) ∧ buf2.quota = none
  | [], val, _, buf, i, hq => ⟨buf, by simp [packFields], hq⟩
  | f :: rest, val, hw, buf, i, hq => by
    rw [wfFields] at hw
    obtain ⟨b1, h1, hq1⟩ := packField_ok f val hw.1 buf i hq
    obtain ⟨b2, h2, hq2⟩ := packFields_ok rest (register val f.2.2) hw.2 b1 (i + 1) hq1
    refine ⟨b2, ?_, hq2⟩
    rw [packFields, h1]
    exact h2
theorem packField_ok : ∀ (f : String × Bool × Value) (val : Nat), wfField val f →
    ∀ (buf : Sink) (i : Nat), buf.quota = none →
    ∃ buf2, packField buf val i f = (buf2, register val f.2.2, .ok) ∧ buf2.quota = none
  | (_, false, _), val, hw, buf, i, hq => by simp [wfField] at hw
  | (_, true, .u64 dat), val, hw, buf, i, hq => by
    rw [packField]; exact flush_of_quota_none buf dat _ hq
  | (_, true, .u32 dat), val, hw, buf, i, hq => by
    rw [packField]; exact flush_of_quota_none buf dat _ hq
  | (_, true, .u16 dat), val, hw, buf, i, hq => by
    rw [packField]; exact flush_of_quota_none buf dat _ hq
  | (_, true, .byte dat), val, hw, buf, i, hq => by
    rw [packField]; exact flush_of_quota_none buf dat _ hq
  | (_, true, .bool dat), val, hw, buf, i, hq => by
    rw [packField]; exact flush_of_quota_none buf val _ hq
  | (tag, true, .bytes dat), val, hw, buf, i, hq => by
    rw [wfField] at hw
    obtain ⟨r, hr⟩ := makeBytesFromTagForPack_ok tag val dat hw
    rw [packField, hr]
    exact flush_of_quota_none buf val _ hq
  | (_, true, .varint dat), val, hw, buf, i, hq => by
    rw [packField]; exact flush_of_quota_none buf dat _ hq
  | (_, true, .str dat), val, hw, buf, i, hq => by
    rw [packField, Sink.write_of_quota_none buf _ hq]
    exact flush_of_quota_none _ val _ rfl
  | (_, true, .struct fields), val, hw, buf, i, hq => by
    rw [wfField] at hw
    obtain ⟨b1, h1, hq1⟩ := Pack_ok (.struct fields) hw buf hq
    refine ⟨b1, ?_, hq1⟩
    rw [packField, h1]
    rfl
  | (tag, true, .slice elem items), val, hw, buf, i, hq => by
    rw [wfField] at hw
    rw [packField]
    by_cases ht : tag = prefixTag
    · rw [if_pos ht, Sink.write_of_quota_none buf _ hq]
      obtain ⟨b1, h1, hq1⟩ := packElems_ok items elem hw.2 ⟨buf.chunks ++ [int2varint items.length], none⟩ rfl
      refine ⟨b1, ?_, hq1⟩
      simp only [h1]
      rfl
    · rw [if_neg ht]
      obtain ⟨b1, h1, hq1⟩ := packElems_ok items elem hw.2 buf hq
      refine ⟨b1, ?_, hq1⟩
      simp only [h1]
      rfl
  | (_, true, .other), val, hw, buf, i, hq => by simp [wfField] at hw
theorem packElems_ok : ∀ (vs : List Value) (elem : Value), wfElems elem vs →
    ∀ (buf : Sink), buf.quota = none →
    ∃ buf2, packElems buf vs = (buf2, .ok) ∧ buf2.quota = none
  | [], _, _, buf, hq => ⟨buf, by simp [packElems], hq⟩
  | v :: rest, elem, hw, buf, hq => by
    rw [wfElems] at hw
    obtain ⟨b1, h1, hq1⟩ := Pack_ok v hw.1.1 buf hq
    obtain ⟨b2, h2, hq2⟩ := packElems_ok rest elem hw.2 b1 hq1
    refine ⟨b2, ?_, hq2⟩
    rw [packElems, h1]
    exact h2
end

/-! ## `Unpack` reads back what `Pack` wrote -/

theorem padTo_length_self (d : List Nat) : padTo d.length d = d := by
  simp [padTo]

theorem getTagValue_wire (tag : String) (val n : Nat) (rest : List Nat)
    (h : lengthOk tag val n) :
    getTagValue tag val
        ((if policyOf tag = some .prefixed then compactSize n else []) ++ rest)
      = (.ok (n : Int), rest) := by
  obtain ⟨hn, hp | ⟨hp, hv⟩ | hp⟩ := h
  · have ht := (policyOf_prefixed tag).1 hp
    rw [if_pos hp]
    subst ht
    unfold getTagValue
    rw [if_neg prefixTag_ne_lastnumTag, if_pos rfl, ← int2varint_eq_compactSize,
      varint_decode_encode_append n (by omega) rest]
    simp only [intOfUint64_of_lt n hn]
  · have ht := (policyOf_carryOver tag).1 hp
    have hne : ¬ policyOf tag = some .prefixed := by rw [hp]; simp
    rw [if_neg hne]
    subst ht
    unfold getTagValue
    rw [if_pos rfl, ← hv, intOfUint64_of_lt n hn]
    rfl
  · obtain ⟨h1, h2, h3, h4⟩ := (policyOf_fixed tag _).1 hp
    have hne : ¬ policyOf tag = some .prefixed := by rw [hp]; simp
    rw [if_neg hne]
    unfold getTagValue
    rw [if_neg h1, if_neg h2, if_neg h3, h4]
    rfl

theorem makeBytesFromTag_wire (tag : String) (val n : Nat) (rest : List Nat)
    (h : lengthOk tag val n) :
    makeBytesFromTag tag val
        ((if policyOf tag = some .prefixed then compactSize n else []) ++ rest)
      = (.ok (List.replicate n 0), rest) := by
  unfold makeBytesFromTag
  rw [getTagValue_wire tag val n rest h]
  have : ¬ ((n : Int) < 0) := by omega
  simp [this]

theorem makeValueFromTag_wire (tag : String) (val n : Nat) (rest : List Nat)
    (h : lengthOk tag val n) :
    makeValueFromTag tag val
        ((if policyOf tag = some .prefixed then compactSize n else []) ++ rest)
      = (.ok n, rest) := by
  unfold makeValueFromTag
  rw [getTagValue_wire tag val n rest h]
  have : ¬ ((n : Int) < 0) := by omega
  simp [this]

theorem wireField_bytes (tag : String) (exported : Bool) (val : Nat) (dat : List Nat)
    (h : lengthOk tag val dat.length) :
    wireField val (tag, exported, .bytes dat)
      = (if policyOf tag = some .prefixed then compactSize dat.length else []) ++ dat := by
  rw [wireField]
  obtain ⟨_, hp | ⟨hp, hv⟩ | hp⟩ := h
  · simp [hp]
  · simp [hp, ← hv, padTo_length_self]
  · simp [hp, padTo_length_self]

mutual
theorem Unpack_wire : ∀ (r : Value), WellFormed r → ∀ (v0 : Value) (t : List Nat),
    zero v0 = zero r → Unpack (wire r ++ t) v0 = (t, r, .ok)
  | .struct fields, hw, v0, t, hz => by
    rw [WellFormed] at hw
    cases v0 <;> simp only [zero, Value.struct.injEq, reduceCtorEq] at hz
    rename_i fields0
    rw [wire, Unpack, unpackFields_wire fields 0 hw fields0 t 0 hz]
  | .u64 _, hw, _, _, _ | .u32 _, hw, _, _, _ | .u16 _, hw, _, _, _ | .byte _, hw, _, _, _
  | .bool _, hw, _, _, _ | .bytes _, hw, _, _, _ | .varint _, hw, _, _, _ | .str _, hw, _, _, _
  | .slice _ _, hw, _, _, _ | .other, hw, _, _, _ => by
    simp [WellFormed] at hw
theorem unpackFields_wire : ∀ (fs : List (String × Bool × Value)) (val : Nat),
    wfFields val fs → ∀ (fs0 : List (String × Bool × Value)) (t : List Nat) (i : Nat),
    zeroFields fs0 = zeroFields fs →
    unpackFields (wireFields val fs ++ t) val i fs0 = (t, fs, .ok)
  | [], val, _, fs0, t, i, hz => by
    cases fs0 with
    | nil => simp [wireFields, unpackFields]
    | cons f0 rest0 => obtain ⟨a, b, c⟩ := f0; simp [zeroFields] at hz
  | (tag, exported, v) :: rest, val, hw, fs0, t, i, hz => by
    cases fs0 with
    | nil => simp [zeroFields] at hz
    | cons f0 rest0 =>
      obtain ⟨tag0, exported0, v0⟩ := f0
      simp only [zeroFields, List.cons.injEq, Prod.mk.injEq] at hz
      obtain ⟨⟨ht, he, hv⟩, hrest⟩ := hz
      subst ht he
      rw [wfFields] at hw
      have h1 := unpackField_wire (tag0, exported0, v) val hw.1 v0
        (wireFields (register val v) rest ++ t) i hv
      have h2 := unpackFields_wire rest (register val v) hw.2 rest0 t (i + 1) hrest
      simp only at h1 h2
      rw [wireFields, List.append_assoc, unpackFields, h1]
      simp only [h2]
theorem unpackField_wire : ∀ (f : String × Bool × Value) (val : Nat), wfField val f →
    ∀ (v0 : Value) (t : List Nat) (i : Nat), zero v0 = zero f.2.2 →
    unpackField (wireField val f ++ t) val i (f.1, f.2.1, v0)
      = (t, register val f.2.2, f.2.2, .ok)
  | (_, false, _), val, hw, _, _, _, _ => by simp [wfField] at hw
  | (_, true, .u64 dat), val, hw, v0, t, i, hz => by
    cases v0 <;> simp only [zero, reduceCtorEq] at hz
    rw [wfField] at hw
    have hr := readFull_append_of_length (putLE 8 dat) t 8 (putLE_length 8 dat)
    have hg := getLE_putLE 8 dat (by norm_num at hw ⊢; omega)
    simp only [wireField, ← putLE_eq_leBytes, unpackField, hr, hg, register]
  | (_, true, .u32 dat), val, hw, v0, t, i, hz => by
    cases v0 <;> simp only [zero, reduceCtorEq] at hz
    rw [wfField] at hw
    have hr := readFull_append_of_length (putLE 4 dat) t 4 (putLE_length 4 dat)
    have hg := getLE_putLE 4 dat (by norm_num at hw ⊢; omega)
    simp only [wireField, ← putLE_eq_leBytes, unpackField, hr, hg, register]
  | (_, true, .u16 dat), val, hw, v0, t, i, hz => by
    cases v0 <;> simp only [zero, reduceCtorEq] at hz
    rw [wfField] at hw
    have hr := readFull_append_of_length (putLE 2 dat) t 2 (putLE_length 2 dat)
    have hg := getLE_putLE 2 dat (by norm_num at hw ⊢; omega)
    simp only [wireField, ← putLE_eq_leBytes, unpackField, hr, hg, register]
  | (_, true, .byte dat), val, hw, v0, t, i, hz => by
    cases v0 <;> simp only [zero, reduceCtorEq] at hz
    simp only [wireField, unpackField, List.singleton_append, readFull_one_cons,
      List.headD_cons, register]
  | (_, true, .bool dat), val, hw, v0, t, i, hz => by
    cases v0 <;> simp only [zero, reduceCtorEq] at hz
    cases dat <;>
      simp [wireField, unpackField, readFull_one_cons, register]
  | (tag, true, .bytes dat), val, hw, v0, t, i, hz => by
    cases v0 <;> simp only [zero, reduceCtorEq] at hz
    rw [wfField] at hw
    have hm := makeBytesFromTag_wire tag val dat.length (dat ++ t) hw
    have hr := readFull_append dat t
    simp only [wireField_bytes tag true val dat hw, List.append_assoc, unpackField, hm,
      List.length_replicate, hr, register]
  | (_, true, .varint dat), val, hw, v0, t, i, hz => by
    cases v0 <;> simp only [zero, reduceCtorEq] at hz
    rw [wfField] at hw
    have hb := varint_decode_encode_append dat hw t
    simp only [wireField, ← int2varint_eq_compactSize, unpackField, hb, register]
  | (_, true, .str dat), val, hw, v0, t, i, hz => by
    cases v0 <;> simp only [zero, reduceCtorEq] at hz
    rw [wfField] at hw
    have hb := varint_decode_encode_append dat.length (by omega) (dat ++ t)
    have hr := readFull_append dat t
    simp only [wireField, ← int2varint_eq_compactSize, List.append_assoc, unpackField, hb,
      hw, if_true, hr, register]
  | (_, true, .struct fields), val, hw, v0, t, i, hz => by
    rw [wfField] at hw
    have h1 := Unpack_wire (.struct fields) hw v0 t hz
    cases v0 <;> simp only [zero, Value.struct.injEq, reduceCtorEq] at hz
    simp only [wireField, unpackField, h1, register]
  | (tag, true, .slice elem items), val, hw, v0, t, i, hz => by
    cases v0 <;> simp only [zero, Value.slice.injEq, reduceCtorEq, and_true] at hz
    subst hz
    rw [wfField] at hw
    have hm := makeValueFromTag_wire tag val items.length (wireElems items ++ t) hw.1
    have he := unpackElems_wire items _ hw.2 t
    simp only [wireField, List.append_assoc, unpackField, hm, he, register]
  | (_, true, .other), val, hw, _, _, _, _ => by simp [wfField] at hw
theorem unpackElems_wire : ∀ (vs : List Value) (elem : Value), wfElems elem vs →
    ∀ (t : List Nat),
    unpackElems (fun s => Unpack s elem) vs.length (wireElems vs ++ t) = (t, vs, .ok)
  | [], _, _, t => by simp [wireElems, unpackElems]
  | v :: rest, elem, hw, t => by
    rw [wfElems] at hw
    have h1 := Unpack_wire v hw.1.1 elem (wireElems rest ++ t) hw.1.2.symm
    have h2 := unpackElems_wire rest elem hw.2 t
    simp only [wireElems, List.append_assoc, List.length_cons, unpackElems, h1, h2]
end

/-! ## `Unpack` on a truncated stream -/

theorem append_split (p q a b : List Nat) (h : p ++ q = a ++ b) :
    (∃ q2, q2 ≠ [] ∧ p ++ q2 = a) ∨ (∃ p2, p = a ++ p2 ∧ p2 ++ q = b) := by
  rcases List.append_eq_append_iff.1 h with ⟨a2, h1, h2⟩ | ⟨c2, h1, h2⟩
  · by_cases ha : a2 = []
    · subst ha
      right
      exact ⟨[], by simpa using h1.symm, by simpa using h2⟩
    · left
      exact ⟨a2, ha, h1.symm⟩
  · right
    exact ⟨c2, h1, h2.symm⟩

theorem length_lt_of_append (p q a : List Nat) (hq : q ≠ []) (h : p ++ q = a) :
    p.length < a.length := by
  subst h
  have : 0 < q.length := List.length_pos.2 hq
  simp only [List.length_append]
  omega

theorem readFull_trunc (p q a : List Nat) (n : Nat) (hq : q ≠ []) (h : p ++ q = a)
    (hn : a.length = n) : ∃ e, readFull p n = (.error e, []) ∧ e.isEOF :=
  readFull_short p n (hn ▸ length_lt_of_append p q a hq h)

theorem byte2varint_trunc (v : Nat) (p q : List Nat) (hq : q ≠ [])
    (h : p ++ q = int2varint v) : ∃ e, byte2varint p = (.error e, []) ∧ e.isEOF := by
  cases p with
  | nil => exact ⟨.eof, rfl, trivial⟩
  | cons b r =>
    have hlen : 0 < q.length := List.length_pos.2 hq
    rw [byte2varint_cons]
    unfold int2varint at h
    split_ifs at h with h1 h2 h3
    · simp only [List.cons_append, List.cons.injEq, List.append_eq_nil] at h
      exact absurd h.2.2 hq
    · simp only [List.cons_append, List.cons.injEq] at h
      obtain ⟨hb, hr⟩ := h
      have hl := congrArg List.length hr
      simp only [List.length_append, putLE_length] at hl
      have hlt : ¬ 2 ≤ r.length := by omega
      subst hb
      simp only [if_true, hlt, if_false]
      cases r with
      | nil => exact ⟨.eof, rfl, trivial⟩
      | cons c cs => exact ⟨.unexpectedEOF, rfl, trivial⟩
    · simp only [List.cons_append, List.cons.injEq] at h
      obtain ⟨hb, hr⟩ := h
      have hl := congrArg List.length hr
      simp only [List.length_append, putLE_length] at hl
      have hlt : ¬ 4 ≤ r.length := by omega
      subst hb
      simp only [if_true, hlt, if_false, Nat.reduceEqDiff]
      cases r with
      | nil => exact ⟨.eof, rfl, trivial⟩
      | cons c cs => exact ⟨.unexpectedEOF, rfl, trivial⟩
    · simp only [List.cons_append, List.cons.injEq] at h
      obtain ⟨hb, hr⟩ := h
      have hl := congrArg List.length hr
      simp only [List.length_append, putLE_length] at hl
      have hlt : ¬ 8 ≤ r.length := by omega
      subst hb
      simp only [if_true, hlt, if_false, Nat.reduceEqDiff]
      cases r with
      | nil => exact ⟨.eof, rfl, trivial⟩
      | cons c cs => exact ⟨.unexpectedEOF, rfl, trivial⟩

theorem getTagValue_trunc (tag : String) (val n : Nat) (p q : List Nat) (hq : q ≠ [])
    (h : p ++ q = (if policyOf tag = some .prefixed then compactSize n else [])) :
    ∃ e, getTagValue tag val p = (.error e, []) ∧ e.isEOF := by
  by_cases hp : policyOf tag = some .prefixed
  · rw [if_pos hp, ← int2varint_eq_compactSize] at h
    obtain ⟨e, he, hE⟩ := byte2varint_trunc n p q hq h
    have ht := (policyOf_prefixed tag).1 hp
    subst ht
    refine ⟨e, ?_, hE⟩
    unfold getTagValue
    rw [if_neg prefixTag_ne_lastnumTag, if_pos rfl, he]
  · rw [if_neg hp] at h
    simp only [List.append_eq_nil] at h
    exact absurd h.2 hq

theorem Outcome.not_isEOF_ok : ¬ Outcome.ok.isEOF := by
  simp [Outcome.isEOF]

theorem Outcome.not_isEOF_panic : ¬ Outcome.panic.isEOF := by
  simp [Outcome.isEOF]

mutual
theorem Unpack_trunc : ∀ (r : Value), WellFormed r → ∀ (v0 : Value) (p q : List Nat),
    zero v0 = zero r → q ≠ [] → p ++ q = wire r → (Unpack p v0).2.2.isEOF
  | .struct fields, hw, v0, p, q, hz, hq, h => by
    rw [WellFormed] at hw
    cases v0 <;> simp only [zero, Value.struct.injEq, reduceCtorEq] at hz
    rename_i fields0
    rw [wire] at h
    have := unpackFields_trunc fields 0 hw fields0 p q 0 hz hq h
    rw [Unpack]
    exact this
  | .u64 _, hw, _, _, _, _, _, _ | .u32 _, hw, _, _, _, _, _, _ | .u16 _, hw, _, _, _, _, _, _
  | .byte _, hw, _, _, _, _, _, _ | .bool _, hw, _, _, _, _, _, _
  | .bytes _, hw, _, _, _, _, _, _ | .varint _, hw, _, _, _, _, _, _
  | .str _, hw, _, _, _, _, _, _ | .slice _ _, hw, _, _, _, _, _, _
  | .other, hw, _, _, _, _, _, _ => by
    simp [WellFormed] at hw
theorem unpackFields_trunc : ∀ (fs : List (String × Bool × Value)) (val : Nat),
    wfFields val fs → ∀ (fs0 : List (String × Bool × Value)) (p q : List Nat) (i : Nat),
    zeroFields fs0 = zeroFields fs → q ≠ [] → p ++ q = wireFields val fs →
    (unpackFields p val i fs0).2.2.isEOF
  | [], val, _, fs0, p, q, i, hz, hq, h => by
    simp only [wireFields, List.append_eq_nil] at h
    exact absurd h.2 hq
  | (tag, exported, v) :: rest, val, hw, fs0, p, q, i, hz, hq, h => by
    cases fs0 with
    | nil => simp [zeroFields] at hz
    | cons f0 rest0 =>
      obtain ⟨tag0, exported0, v0⟩ := f0
      simp only [zeroFields, List.cons.injEq, Prod.mk.injEq] at hz
      obtain ⟨⟨ht, he, hv⟩, hrest⟩ := hz
      subst ht he
      rw [wfFields] at hw
      rw [wireFields] at h
      rcases append_split p q _ _ h with ⟨q2, hq2, h2⟩ | ⟨p2, hp2, h2⟩
      · have h1 := unpackField_trunc (tag0, exported0, v) val hw.1 v0 p q2 i hv hq2 h2
        simp only at h1
        rcases hu : unpackField p val i (tag0, exported0, v0) with ⟨r1, val1, v1, o1⟩
        rw [hu] at h1
        rw [unpackFields, hu]
        cases o1 with
        | ok => exact absurd h1 Outcome.not_isEOF_ok
        | error e => exact h1
        | panic => exact absurd h1 Outcome.not_isEOF_panic
      · have h1 := unpackField_wire (tag0, exported0, v) val hw.1 v0 p2 i hv
        have h3 := unpackFields_trunc rest (register val v) hw.2 rest0 p2 q (i + 1) hrest hq h2
        simp only at h1 h3
        rw [hp2, unpackFields, h1]
        exact h3
theorem unpackField_trunc : ∀ (f : String × Bool × Value) (val : Nat), wfField val f →
    ∀ (v0 : Value) (p q : List Nat) (i : Nat), zero v0 = zero f.2.2 → q ≠ [] →
    p ++ q = wireField val f → (unpackField p val i (f.1, f.2.1, v0)).2.2.2.isEOF
  | (_, false, _), val, hw, _, _, _, _, _, _, _ => by simp [wfField] at hw
  | (_, true, .u64 dat), val, hw, v0, p, q, i, hz, hq, h => by
    cases v0 <;> simp only [zero, reduceCtorEq] at hz
    rw [wireField, ← putLE_eq_leBytes] at h
    obtain ⟨e, he, hE⟩ := readFull_trunc p q _ 8 hq h (putLE_length 8 dat)
    simp only [unpackField, he]
    exact hE
  | (_, true, .u32 dat), val, hw, v0, p, q, i, hz, hq, h => by
    cases v0 <;> simp only [zero, reduceCtorEq] at hz
    rw [wireField, ← putLE_eq_leBytes] at h
    obtain ⟨e, he, hE⟩ := readFull_trunc p q _ 4 hq h (putLE_length 4 dat)
    simp only [unpackField, he]
    exact hE
  | (_, true, .u16 dat), val, hw, v0, p, q, i, hz, hq, h => by
    cases v0 <;> simp only [zero, reduceCtorEq] at hz
    rw [wireField, ← putLE_eq_leBytes] at h
    obtain ⟨e, he, hE⟩ := readFull_trunc p q _ 2 hq h (putLE_length 2 dat)
    simp only [unpackField, he]
    exact hE
  | (_, true, .byte dat), val, hw, v0, p, q, i, hz, hq, h => by
    cases v0 <;> simp only [zero, reduceCtorEq] at hz
    rw [wireField] at h
    obtain ⟨e, he, hE⟩ := readFull_trunc p q _ 1 hq h rfl
    simp only [unpackField, he]
    exact hE
  | (_, true, .bool dat), val, hw, v0, p, q, i, hz, hq, h => by
    cases v0 <;> simp only [zero, reduceCtorEq] at hz
    rw [wireField] at h
    obtain ⟨e, he, hE⟩ := readFull_trunc p q _ 1 hq h rfl
    simp only [unpackField, he]
    exact hE
  | (tag, true, .bytes dat), val, hw, v0, p, q, i, hz, hq, h => by
    cases v0 <;> simp only [zero, reduceCtorEq] at hz
    rw [wfField] at hw
    rw [wireField_bytes tag true val dat hw] at h
    rcases append_split p q _ _ h with ⟨q2, hq2, h2⟩ | ⟨p2, hp2, h2⟩
    · obtain ⟨e, he, hE⟩ := getTagValue_trunc tag val dat.length p q2 hq2 h2
      simp only [unpackField, makeBytesFromTag, he]
      exact hE
    · have hm := makeBytesFromTag_wire tag val dat.length p2 hw
      obtain ⟨e, he, hE⟩ := readFull_trunc p2 q dat dat.length hq h2 rfl
      simp only [hp2, unpackField, hm, List.length_replicate, he]
      exact hE
  | (_, true, .varint dat), val, hw, v0, p, q, i, hz, hq, h => by
    cases v0 <;> simp only [zero, reduceCtorEq] at hz
    rw [wireField, ← int2varint_eq_compactSize] at h
    obtain ⟨e, he, hE⟩ := byte2varint_trunc dat p q hq h
    simp only [unpackField, he]
    exact hE
  | (_, true, .str dat), val, hw, v0, p, q, i, hz, hq, h => by
    cases v0 <;> simp only [zero, reduceCtorEq] at hz
    rw [wfField] at hw
    rw [wireField, ← int2varint_eq_compactSize] at h
    rcases append_split p q _ _ h with ⟨q2, hq2, h2⟩ | ⟨p2, hp2, h2⟩
    · obtain ⟨e, he, hE⟩ := byte2varint_trunc dat.length p q2 hq2 h2
      simp only [unpackField, he]
      exact hE
    · have hb := varint_decode_encode_append dat.length (by omega) p2
      obtain ⟨e, he, hE⟩ := readFull_trunc p2 q dat dat.length hq h2 rfl
      simp only [hp2, unpackField, hb, hw, if_true, he]
      exact hE
  | (_, true, .struct fields), val, hw, v0, p, q, i, hz, hq, h => by
    rw [wfField] at hw
    rw [wireField] at h
    have h1 := Unpack_trunc (.struct fields) hw v0 p q hz hq h
    cases v0 <;> simp only [zero, Value.struct.injEq, reduceCtorEq] at hz
    simp only [unpackField]
    exact h1
  | (tag, true, .slice elem items), val, hw, v0, p, q, i, hz, hq, h => by
    cases v0 <;> simp only [zero, Value.slice.injEq, reduceCtorEq, and_true] at hz
    subst hz
    rw [wfField] at hw
    rw [wireField] at h
    rcases append_split p q _ _ h with ⟨q2, hq2, h2⟩ | ⟨p2, hp2, h2⟩
    · obtain ⟨e, he, hE⟩ := getTagValue_trunc tag val items.length p q2 hq2 h2
      simp only [unpackField, makeValueFromTag, he]
      exact hE
    · have hm := makeValueFromTag_wire tag val items.length p2 hw.1
      have h3 := unpackElems_trunc items _ hw.2 p2 q hq h2
      rename_i elem0 old
      rcases hu : unpackElems (fun s => Unpack s elem0) items.length p2 with ⟨r2, newv, o2⟩
      rw [hu] at h3
      simp only [hp2, unpackField, hm, hu]
      cases o2 with
      | ok => exact absurd h3 Outcome.not_isEOF_ok
      | error e => exact h3
      | panic => exact absurd h3 Outcome.not_isEOF_panic
  | (_, true, .other), val, hw, _, _, _, _, _, _, _ => by simp [wfField] at hw
theorem unpackElems_trunc : ∀ (vs : List Value) (elem : Value), wfElems elem vs →
    ∀ (p q : List Nat), q ≠ [] → p ++ q = wireElems vs →
    (unpackElems (fun s => Unpack s elem) vs.length p).2.2.isEOF
  | [], _, _, p, q, hq, h => by
    simp only [wireElems, List.append_eq_nil] at h
    exact absurd h.2 hq
  | v :: rest, elem, hw, p, q, hq, h => by
    rw [wfElems] at hw
    rw [wireElems] at h
    rcases append_split p q _ _ h with ⟨q2, hq2, h2⟩ | ⟨p2, hp2, h2⟩
    · have h1 := Unpack_trunc v hw.1.1 elem p q2 hw.1.2.symm hq2 h2
      rcases hu : Unpack p elem with ⟨r1, v1, o1⟩
      rw [hu] at h1
      simp only [List.length_cons, unpackElems, hu]
      cases o1 with
      | ok => exact absurd h1 Outcome.not_isEOF_ok
      | error e => exact h1
      | panic => exact absurd h1 Outcome.not_isEOF_panic
    · have h1 := Unpack_wire v hw.1.1 elem p2 hw.1.2.symm
      have h3 := unpackElems_trunc rest elem hw.2 p2 q hq h2
      simp only [hp2, List.length_cons, unpackElems, h1]
      exact h3
end

/-! ## The test fixture, evaluated -/

theorem s1_wellFormed : WellFormed s1 := by
  simp [WellFormed, wfFields, wfField, wfElems, s1, S3, register, lengthOk, zero, zeroFields]
  decide

theorem wire_s1 : wire s1 = result := by decide

theorem testPack : (Pack Sink.buffer s1).1.bytes = result ∧ (Pack Sink.buffer s1).2 = .ok := by
  decide

theorem testUnpack1 : Unpack result s2 = ([], s1, .ok) := by rfl

/-! ## Round trip and wire format -/

/-- C1. Round trip: for every well-formed record `r` and every record `v0` of the
same type, `Pack` of `r` into an empty buffer succeeds, and `Unpack` of the
bytes written into `v0` succeeds, reads all of them and yields `r`. -/
theorem Unpack_Pack_roundtrip (r v0 : Value) (hw : WellFormed r) (hz : zero v0 = zero r) :
    ∃ buf, Pack Sink.buffer r = (buf, .ok) ∧ Unpack buf.bytes v0 = ([], r, .ok) := by
  obtain ⟨buf, hp, _⟩ := Pack_ok r hw Sink.buffer rfl
  refine ⟨buf, hp, ?_⟩
  have hb := Pack_wire r Sink.buffer buf hp
  have hu := Unpack_wire r hw v0 [] hz
  rw [hb]
  simpa [Sink.buffer, Sink.bytes] using hu

theorem Unpack_Pack_roundtrip_witness :
    WellFormed s1 ∧ zero s2 = zero s1 ∧
      ∃ buf, Pack Sink.buffer s1 = (buf, .ok) ∧ Unpack buf.bytes s2 = ([], s1, .ok) :=
  ⟨s1_wellFormed, rfl, Unpack_Pack_roundtrip s1 s2 s1_wellFormed rfl⟩

/-- C2. Wire format: whenever `Pack` succeeds on a record, the bytes it added to
the sink are exactly the wire form of the record, that is the encodings of its
fields in declaration order with no header, separator or trailer. -/
theorem Pack_wire_format (buf buf2 : Sink) (r : Value) (h : Pack buf r = (buf2, .ok)) :
    buf2.bytes = buf.bytes ++ wire r :=
  Pack_wire r buf buf2 h

theorem Pack_wire_format_witness :
    Pack Sink.buffer s1 = ((Pack Sink.buffer s1).1, .ok) ∧
      (Pack Sink.buffer s1).1.bytes = Sink.buffer.bytes ++ wire s1 ∧
      Sink.buffer.bytes ++ wire s1 = result :=
  ⟨by rfl, Pack_wire_format Sink.buffer (Pack Sink.buffer s1).1 s1 (by rfl), by decide⟩

/-! ## Byte sequences and the length policies on encode -/

theorem atoi_lt (s : String) (m : Int) (h : atoi s = .ok m) : m < 2 ^ 63 := by
  unfold atoi at h
  cases hl : s.toList with
  | nil => rw [hl] at h; cases h
  | cons c cs =>
    rw [hl] at h
    dsimp only at h
    split_ifs at h with h1 h2
    all_goals
      first
      | cases h
      | (cases hd : digitsToNat _ 0 with
         | none => rw [hd] at h; cases h
         | some k =>
           rw [hd] at h
           dsimp only at h
           split_ifs at h with h3
           all_goals
             first
             | (cases h; done)
             | (cases h; omega))

theorem pad_examples :
    (packField Sink.buffer 6 5 ("lastnum", true, .bytes [0x67, 0x89, 0xab, 0xcd])).1.bytes
        = [0x67, 0x89, 0xab, 0xcd, 0, 0] ∧
    (packField Sink.buffer 2 5 ("lastnum", true, .bytes [0x67, 0x89, 0xab, 0xcd])).1.bytes
        = [0x67, 0x89] ∧
    (packField Sink.buffer 0 3 ("5", true, .bytes [0x12, 0x34, 0x45])).1.bytes
        = [0x12, 0x34, 0x45, 0, 0] ∧
    (packField Sink.buffer 0 3 ("2", true, .bytes [0x12, 0x34, 0x45])).1.bytes
        = [0x12, 0x34] := by
  decide

theorem policyOf_prefixTag : policyOf prefixTag = some .prefixed :=
  (policyOf_prefixed prefixTag).2 rfl

theorem lengthOk_prefixTag (val n : Nat) (h : n < 2 ^ 63) : lengthOk prefixTag val n :=
  ⟨h, Or.inl policyOf_prefixTag⟩

/-- C7. Prefixed policy: for a byte-sequence field holding `d` and a record-sequence
field holding the well-formed records `items`, both tagged `prefix`, `Pack`
writes `int2varint` of the actual count immediately before the data and then
all the bytes, respectively all the elements; and `Unpack` of those bytes
rebuilds a sequence of exactly that many bytes, respectively elements (the ones
that were packed). -/
theorem prefixed_field (val i : Nat) (d old t : List Nat) (elem : Value)
    (items olds : List Value) (hd : d.length < 2 ^ 63) (hi : items.length < 2 ^ 63)
    (hw : wfElems elem items) :
    (∀ buf buf2 : Sink, buf.write (int2varint d.length ++ d) = some buf2 →
        packField buf val i (prefixTag, true, .bytes d) = (buf2, val, .ok) ∧
        buf2.bytes = buf.bytes ++ (int2varint d.length ++ d)) ∧
    unpackField (int2varint d.length ++ d ++ t) val i (prefixTag, true, .bytes old)
      = (t, val, .bytes d, .ok) ∧
    (∀ buf : Sink, buf.quota = none →
        ∃ buf2, packField buf val i (prefixTag, true, .slice elem items) = (buf2, val, .ok) ∧
          buf2.bytes = buf.bytes ++ (int2varint items.length ++ wireElems items)) ∧
    unpackField (int2varint items.length ++ wireElems items ++ t) val i
        (prefixTag, true, .slice elem olds)
      = (t, val, .slice elem items, .ok) := by
  have hlb := lengthOk_prefixTag val d.length hd
  have hli := lengthOk_prefixTag val items.length hi
  refine ⟨?_, ?_, ?_, ?_⟩
  · intro buf buf2 hwr
    refine ⟨?_, Sink.write_bytes _ _ _ hwr⟩
    have hm : makeBytesFromTagForPack prefixTag val d = .ok (int2varint d.length ++ d) := by
      unfold makeBytesFromTagForPack
      rw [if_neg prefixTag_ne_lastnumTag, if_pos rfl]
      simp only [copy_prefixed]
    rw [packField, hm]
    simp only [flush, hwr]
  · have h := unpackField_wire (prefixTag, true, .bytes d) val hlb (.bytes old) t i rfl
    simpa [wireField, policyOf_prefixTag, int2varint_eq_compactSize, register] using h
  · intro buf hq
    obtain ⟨buf2, h1, _⟩ :=
      packField_ok (prefixTag, true, .slice elem items) val ⟨hli, hw⟩ buf i hq
    have h2 := packField_wire _ _ _ _ _ _ h1
    refine ⟨buf2, by simpa [register] using h1, ?_⟩
    simpa [wireField, policyOf_prefixTag, int2varint_eq_compactSize] using h2.1
  · have h := unpackField_wire (prefixTag, true, .slice elem items) val ⟨hli, hw⟩
      (.slice elem olds) t i rfl
    simpa [wireField, policyOf_prefixTag, int2varint_eq_compactSize, register] using h

theorem prefixed_field_witness :
    ([0xaa, 0xbb, 0xcc].length < 2 ^ 63 ∧ [S3 0x21, S3 0x22].length < 2 ^ 63 ∧
      wfElems (S3 0) [S3 0x21, S3 0x22]) ∧
    ((∀ buf buf2 : Sink,
        buf.write (int2varint [0xaa, 0xbb, 0xcc].length ++ [0xaa, 0xbb, 0xcc]) = some buf2 →
        packField buf 7 0 (prefixTag, true, .bytes [0xaa, 0xbb, 0xcc]) = (buf2, 7, .ok) ∧
        buf2.bytes = buf.bytes ++ (int2varint [0xaa, 0xbb, 0xcc].length ++ [0xaa, 0xbb, 0xcc])) ∧
    unpackField (int2varint [0xaa, 0xbb, 0xcc].length ++ [0xaa, 0xbb, 0xcc] ++ [0x99]) 7 0
        (prefixTag, true, .bytes [])
      = ([0x99], 7, .bytes [0xaa, 0xbb, 0xcc], .ok) ∧
    (∀ buf : Sink, buf.quota = none →
        ∃ buf2, packField buf 7 0 (prefixTag, true, .slice (S3 0) [S3 0x21, S3 0x22])
            = (buf2, 7, .ok) ∧
          buf2.bytes = buf.bytes
            ++ (int2varint [S3 0x21, S3 0x22].length ++ wireElems [S3 0x21, S3 0x22])) ∧
    unpackField (int2varint [S3 0x21, S3 0x22].length ++ wireElems [S3 0x21, S3 0x22] ++ [0x99])
        7 0 (prefixTag, true, .slice (S3 0) [])
      = ([0x99], 7, .slice (S3 0) [S3 0x21, S3 0x22], .ok)) :=
  ⟨⟨by decide, by decide,
      by simp [wfElems, WellFormed, wfFields, wfField, S3, zero, zeroFields]⟩,
    prefixed_field 7 0 [0xaa, 0xbb, 0xcc] [] [0x99] (S3 0) [S3 0x21, S3 0x22] []
      (by decide) (by decide)
      (by simp [wfElems, WellFormed, wfFields, wfField, S3, zero, zeroFields])⟩

theorem prefixed_examples :
    (packField Sink.buffer 7 0 (prefixTag, true, .bytes [0xaa, 0xbb, 0xcc])).1.bytes
        = [3, 0xaa, 0xbb, 0xcc] ∧
    (packField Sink.buffer 7 0 (prefixTag, true, .slice (S3 0) [S3 0x21, S3 0x22])).1.bytes
        = [2, 0x21, 0x22] := by
  decide

/-! ## Truncated input -/

theorem Err.isEOF_cases (e : Err) (h : e.isEOF) : e = .eof ∨ e = .unexpectedEOF := by
  cases e <;> simp [Err.isEOF] at h ⊢

/-- C8. Truncated input: for every well-formed record `r`, every record `v0` of the
same type and every `k` smaller than the number of bytes `Pack` writes for `r`,
`Pack` succeeds and `Unpack` of the first `k` of those bytes into `v0` returns
an end-of-input error of the full read (`io.EOF` or `io.ErrUnexpectedEOF`),
never success. -/
theorem Unpack_truncated (r v0 : Value) (k : Nat) (hw : WellFormed r)
    (hz : zero v0 = zero r) (hk : k < (Pack Sink.buffer r).1.bytes.length) :
    (Pack Sink.buffer r).2 = .ok ∧
    ∃ e, (Unpack ((Pack Sink.buffer r).1.bytes.take k) v0).2.2 = .error e ∧
      (e = .eof ∨ e = .unexpectedEOF) := by
  obtain ⟨buf, hp, _⟩ := Pack_ok r hw Sink.buffer rfl
  have hb := Pack_wire r Sink.buffer buf hp
  simp only [Sink.buffer, Sink.bytes, List.flatten_nil, List.nil_append] at hb
  rw [hp] at hk ⊢
  simp only [Sink.bytes, hb] at hk ⊢
  refine ⟨trivial, ?_⟩
  have hq : (wire r).drop k ≠ [] := by
    intro hc
    have := congrArg List.length hc
    simp only [List.length_drop, List.length_nil] at this
    omega
  have h := Unpack_trunc r hw v0 ((wire r).take k) ((wire r).drop k) hz hq
    (List.take_append_drop k (wire r))
  cases ho : (Unpack ((wire r).take k) v0).2.2 with
  | ok => rw [ho] at h; exact absurd h Outcome.not_isEOF_ok
  | panic => rw [ho] at h; exact absurd h Outcome.not_isEOF_panic
  | error e =>
    rw [ho] at h
    exact ⟨e, rfl, Err.isEOF_cases e h⟩

theorem Unpack_truncated_witness :
    (WellFormed s1 ∧ zero s2 = zero s1 ∧ 20 < (Pack Sink.buffer s1).1.bytes.length) ∧
    ((Pack Sink.buffer s1).2 = .ok ∧
      ∃ e, (Unpack ((Pack Sink.buffer s1).1.bytes.take 20) s2).2.2 = .error e ∧
        (e = .eof ∨ e = .unexpectedEOF)) :=
  ⟨⟨s1_wellFormed, rfl, by decide⟩,
    Unpack_truncated s1 s2 20 s1_wellFormed rfl (by decide)⟩

theorem truncation_examples :
    (Unpack (result.take 0) s2).2.2 = .error .eof ∧
    (Unpack (result.take 8) s2).2.2 = .error .eof ∧
    (Unpack (result.take 9) s2).2.2 = .error .unexpectedEOF ∧
    (Unpack (result.take 20) s2).2.2 = .error .eof ∧
    (Unpack (result.take 45) s2).2.2 = .error .eof ∧
    (Unpack (result.take 55) s2).2.2 = .error .eof := by
  decide

/-! ## What a failed `Unpack` leaves behind -/

theorem unpackField_error (buf : List Nat) (val i : Nat) (f : String × Bool × Value)
    (r : List Nat) (val2 : Nat) (v2 : Value) (o : Outcome)
    (h : unpackField buf val i f = (r, val2, v2, o)) (ho : o ≠ .ok) :
    v2 = f.2.2 ∨
      ∃ g, f.2.2 = .struct g ∧ f.2.1 = true ∧ Unpack buf (.struct g) = (r, v2, o) := by
  obtain ⟨tag, exported, v⟩ := f
  cases exported with
  | false =>
    simp only [unpackField, Prod.mk.injEq] at h
    exact Or.inl h.2.2.1.symm
  | true =>
    cases v with
    | struct g =>
      right
      refine ⟨g, rfl, rfl, ?_⟩
      simp only [unpackField, Prod.mk.injEq] at h
      obtain ⟨h1, _, h3, h4⟩ := h
      rw [← h1, ← h3, ← h4]
    | slice elem old =>
      left
      simp only [unpackField] at h
      split at h
      · simp only [Prod.mk.injEq] at h; exact h.2.2.1.symm
      · simp only [Prod.mk.injEq] at h; exact h.2.2.1.symm
      · split at h
        · simp only [Prod.mk.injEq] at h; exact absurd h.2.2.2.symm ho
        · simp only [Prod.mk.injEq] at h; exact h.2.2.1.symm
    | str old =>
      left
      simp only [unpackField] at h
      split at h
      · simp only [Prod.mk.injEq] at h; exact h.2.2.1.symm
      · split at h
        · split at h
          · simp only [Prod.mk.injEq] at h; exact h.2.2.1.symm
          · simp only [Prod.mk.injEq] at h; exact absurd h.2.2.2.symm ho
        · simp only [Prod.mk.injEq] at h; exact h.2.2.1.symm
    | bytes old =>
      left
      simp only [unpackField] at h
      split at h
      · simp only [Prod.mk.injEq] at h; exact h.2.2.1.symm
      · simp only [Prod.mk.injEq] at h; exact h.2.2.1.symm
      · split at h
        · simp only [Prod.mk.injEq] at h; exact h.2.2.1.symm
        · simp only [Prod.mk.injEq] at h; exact absurd h.2.2.2.symm ho
    | other =>
      left
      simp only [unpackField, Prod.mk.injEq] at h
      exact h.2.2.1.symm
    | u64 old | u32 old | u16 old | byte old | bool old | varint old =>
      left
      simp only [unpackField] at h
      split at h
      · simp only [Prod.mk.injEq] at h; exact h.2.2.1.symm
      · simp only [Prod.mk.injEq] at h; exact absurd h.2.2.2.symm ho

theorem unpackFields_error_partial : ∀ (fs : List (String × Bool × Value)) (buf : List Nat)
    (val i : Nat) (r : List Nat) (fs2 : List (String × Bool × Value)) (o : Outcome),
    unpackFields buf val i fs = (r, fs2, o) → o ≠ .ok →
    ∃ (k : Nat) (rk : List Nat), k < fs.length ∧ fs2.length = fs.length ∧
      unpackFields buf val i (fs.take k) = (rk, fs2.take k, .ok) ∧
      fs2.drop (k + 1) = fs.drop (k + 1) ∧
      (fs2[k]? = fs[k]? ∨
        ∃ tag g g2, fs[k]? = some (tag, true, .struct g) ∧
          fs2[k]? = some (tag, true, .struct g2) ∧
          Unpack rk (.struct g) = (r, .struct g2, o))
  | [], buf, val, i, r, fs2, o, h, ho => by
    simp only [unpackFields, Prod.mk.injEq] at h
    exact absurd h.2.2.symm ho
  | f :: rest, buf, val, i, r, fs2, o, h, ho => by
    rcases hu : unpackField buf val i f with ⟨r1, val1, v1, o1⟩
    by_cases ho1 : o1 = .ok
    · subst ho1
      rcases hr : unpackFields r1 val1 (i + 1) rest with ⟨r2, rest2, o2⟩
      simp only [unpackFields, hu, hr, Prod.mk.injEq] at h
      obtain ⟨h1, h2, h3⟩ := h
      subst h1 h2 h3
      obtain ⟨k, rk, hk, hlen, htake, hdrop, hfield⟩ :=
        unpackFields_error_partial rest r1 val1 (i + 1) r2 rest2 o2 hr ho
      refine ⟨k + 1, rk, by simpa using hk, by simp [hlen], ?_, by simpa using hdrop, ?_⟩
      · simp only [List.take_succ_cons, unpackFields, hu, htake]
      · simpa using hfield
    · have h2 : unpackFields buf val i (f :: rest) = (r1, (f.1, f.2.1, v1) :: rest, o1) := by
        rw [unpackFields, hu]
        cases o1 with
        | ok => exact absurd rfl ho1
        | error e => rfl
        | panic => rfl
      rw [h2] at h
      simp only [Prod.mk.injEq] at h
      obtain ⟨h3, h4, h5⟩ := h
      subst h3 h4 h5
      refine ⟨0, buf, by simp, by simp, by simp [unpackFields], by simp, ?_⟩
      rcases unpackField_error buf val i f r1 val1 v1 o1 hu ho1 with hv | ⟨g, hg, hex, hun⟩
      · left
        simp [hv]
      · right
        obtain ⟨tag, exported, v⟩ := f
        simp only at hg hex
        subst hg hex
        have hs : ∃ g2, v1 = .struct g2 := by
          rw [Unpack] at hun
          simp only [Prod.mk.injEq] at hun
          exact ⟨_, hun.2.1.symm⟩
        obtain ⟨g2, hg2⟩ := hs
        subst hg2
        exact ⟨tag, g, g2, by simp, by simp, hun⟩

/-- C9 as stated fails. A record whose only field is a nested record of two bytes
is decoded from the single byte 1: the call returns `io.EOF` at field 0, and
field 0 no longer holds what it held before the call, its first byte is 1. -/
theorem Unpack_nested_error_changes_field :
    Unpack [1] (.struct [("", true, .struct [("", true, .byte 0), ("", true, .byte 0)])])
      = ([], .struct [("", true, .struct [("", true, .byte 1), ("", true, .byte 0)])],
          .error .eof)
    ∧ (Value.struct [("", true, .byte 1), ("", true, .byte 0)])
      ≠ (Value.struct [("", true, .byte 0), ("", true, .byte 0)]) := by
  refine ⟨by rfl, ?_⟩
  intro h
  simp at h

/-- C9, amended. Whenever `Unpack` returns an error, there is a field `k` such that
the fields before `k` hold their decoded values (decoding just those fields
succeeds and yields them), every field after `k` is unchanged, and field `k`
is unchanged unless it is a nested record, which is then left as its own
failed `Unpack`, returning the same error, leaves it. -/
theorem Unpack_error_partial (buf : List Nat) (fields : List (String × Bool × Value))
    (r : List Nat) (out : Value) (e : Err)
    (h : Unpack buf (.struct fields) = (r, out, .error e)) :
    ∃ (k : Nat) (fields2 : List (String × Bool × Value)) (rk : List Nat),
      out = .struct fields2 ∧ k < fields.length ∧ fields2.length = fields.length ∧
      unpackFields buf 0 0 (fields.take k) = (rk, fields2.take k, .ok) ∧
      fields2.drop (k + 1) = fields.drop (k + 1) ∧
      (fields2[k]? = fields[k]? ∨
        ∃ tag g g2, fields[k]? = some (tag, true, .struct g) ∧
          fields2[k]? = some (tag, true, .struct g2) ∧
          Unpack rk (.struct g) = (r, .struct g2, .error e)) := by
  rcases hu : unpackFields buf 0 0 fields with ⟨r1, fields2, o⟩
  rw [Unpack, hu] at h
  simp only [Prod.mk.injEq] at h
  obtain ⟨h1, h2, h3⟩ := h
  subst h1 h2 h3
  obtain ⟨k, rk, hk, hlen, htake, hdrop, hfield⟩ :=
    unpackFields_error_partial fields buf 0 0 r1 fields2 _ hu (by simp)
  exact ⟨k, fields2, rk, rfl, hk, hlen, htake, hdrop, hfield⟩

theorem Unpack_error_partial_witness :
    Unpack [7, 1] (.struct [("", true, .byte 0),
        ("", true, .struct [("", true, .byte 0), ("", true, .byte 0)]), ("", true, .u16 9)])
      = ([], .struct [("", true, .byte 7),
          ("", true, .struct [("", true, .byte 1), ("", true, .byte 0)]), ("", true, .u16 9)],
          .error .eof) ∧
    ∃ (k : Nat) (fields2 : List (String × Bool × Value)) (rk : List Nat),
      Value.struct [("", true, .byte 7),
          ("", true, .struct [("", true, .byte 1), ("", true, .byte 0)]), ("", true, .u16 9)]
        = .struct fields2 ∧
      k < [(("", true, .byte 0) : String × Bool × Value),
        ("", true, .struct [("", true, .byte 0), ("", true, .byte 0)]),
        ("", true, .u16 9)].length ∧
      fields2.length = [(("", true, .byte 0) : String × Bool × Value),
        ("", true, .struct [("", true, .byte 0), ("", true, .byte 0)]),
        ("", true, .u16 9)].length ∧
      unpackFields [7, 1] 0 0 ([(("", true, .byte 0) : String × Bool × Value),
        ("", true, .struct [("", true, .byte 0), ("", true, .byte 0)]),
        ("", true, .u16 9)].take k) = (rk, fields2.take k, .ok) ∧
      fields2.drop (k + 1) = [(("", true, .byte 0) : String × Bool × Value),
        ("", true, .struct [("", true, .byte 0), ("", true, .byte 0)]),
        ("", true, .u16 9)].drop (k + 1) ∧
      (fields2[k]? = [(("", true, .byte 0) : String × Bool × Value),
        ("", true, .struct [("", true, .byte 0), ("", true, .byte 0)]),
        ("", true, .u16 9)][k]? ∨
        ∃ tag g g2, [(("", true, .byte 0) : String × Bool × Value),
            ("", true, .struct [("", true, .byte 0), ("", true, .byte 0)]),
            ("", true, .u16 9)][k]? = some (tag, true, .struct g) ∧
          fields2[k]? = some (tag, true, .struct g2) ∧
          Unpack rk (.struct g) = ([], .struct g2, .error .eof)) :=
  ⟨by rfl, Unpack_error_partial [7, 1] _ [] _ .eof (by rfl)⟩

/-! ## A sequence field without a length policy, on encode -/

theorem packField_bytes_no_policy (buf : Sink) (val i : Nat) (tag : String) (d : List Nat)
    (h : policyOf tag = none) (ha : ∀ n, atoi tag ≠ .ok n) :
    ∃ e, packField buf val i (tag, true, .bytes d) = (buf, val, .error e) := by
  have h1 : tag ≠ lastnumTag := fun hc => by
    rw [(policyOf_carryOver tag).2 hc] at h; cases h
  have h2 : tag ≠ prefixTag := fun hc => by
    rw [(policyOf_prefixed tag).2 hc] at h; cases h
  rw [packField]
  unfold makeBytesFromTagForPack
  rw [if_neg h1, if_neg h2]
  by_cases h3 : tag = ""
  · rw [if_pos h3]
    exact ⟨_, rfl⟩
  · rw [if_neg h3]
    cases hat : atoi tag with
    | error e => exact ⟨e, rfl⟩
    | ok n => exact absurd hat (ha n)

/-- C10 on its failing input. A record whose only field is a record sequence with
no `len` tag, holding one element: `Pack` returns a nil error and writes the
element, where the claim has it return an error and write nothing; `Unpack`
into the same type rejects the field for its missing tag. -/
theorem Pack_slice_without_policy :
    Pack Sink.buffer (.struct [("", true, .slice (S3 0) [S3 0x34])])
      = (⟨[[0x34]], none⟩, .ok)
    ∧ Unpack [0x34] (.struct [("", true, .slice (S3 0) [])])
      = ([0x34], .struct [("", true, .slice (S3 0) [])], .error .noTag) := by
  constructor <;> rfl

/-! ## A sequence field without a usable length policy, on decode -/

theorem getTagValue_no_policy (tag : String) (val : Nat) (buf : List Nat)
    (h : tag = "" ∨ (tag ≠ lastnumTag ∧ tag ≠ prefixTag ∧ ∃ e, atoi tag = .error e)) :
    ∃ e, getTagValue tag val buf = (.error e, buf) := by
  unfold getTagValue
  rcases h with h | ⟨h1, h2, e, he⟩
  · subst h
    rw [if_neg empty_ne_lastnumTag, if_neg empty_ne_prefixTag, if_pos rfl]
    exact ⟨_, rfl⟩
  · rw [if_neg h1, if_neg h2]
    by_cases h3 : tag = ""
    · rw [if_pos h3]
      exact ⟨_, rfl⟩
    · rw [if_neg h3, he]
      exact ⟨_, rfl⟩

/-- C11. Missing or invalid length policy on decode: when the loop of `Unpack`
reaches a byte-sequence or record-sequence field whose `len` tag is absent, or
is a literal that `strconv.Atoi` rejects, it returns an error; the reader still
holds every byte it held, and that field and the later ones are as they
were. -/
theorem unpackFields_no_policy (tag : String) (exported : Bool) (buf old : List Nat)
    (val i : Nat) (elem : Value) (olds : List Value) (rest : List (String × Bool × Value))
    (h : tag = "" ∨ (tag ≠ lastnumTag ∧ tag ≠ prefixTag ∧ ∃ e, atoi tag = .error e)) :
    (∃ e, unpackFields buf val i ((tag, exported, .bytes old) :: rest)
        = (buf, (tag, exported, .bytes old) :: rest, .error e)) ∧
    (∃ e, unpackFields buf val i ((tag, exported, .slice elem olds) :: rest)
        = (buf, (tag, exported, .slice elem olds) :: rest, .error e)) := by
  obtain ⟨e, he⟩ := getTagValue_no_policy tag val buf h
  cases exported with
  | false =>
    exact ⟨⟨.cannotSet i, by simp [unpackFields, unpackField]⟩,
      ⟨.cannotSet i, by simp [unpackFields, unpackField]⟩⟩
  | true =>
    refine ⟨⟨e, ?_⟩, ⟨e, ?_⟩⟩
    · simp [unpackFields, unpackField, makeBytesFromTag, he]
    · simp [unpackFields, unpackField, makeValueFromTag, he]

theorem unpackFields_no_policy_witness :
    (("abc" : String) = "" ∨
      ("abc" ≠ lastnumTag ∧ "abc" ≠ prefixTag ∧ ∃ e, atoi "abc" = .error e)) ∧
    ((∃ e, unpackFields [1, 2, 3] 2 1 [("abc", true, .bytes []), ("", true, .byte 0)]
        = ([1, 2, 3], [("abc", true, .bytes []), ("", true, .byte 0)], .error e)) ∧
    (∃ e, unpackFields [1, 2, 3] 2 1 [("abc", true, .slice (S3 0) []), ("", true, .byte 0)]
        = ([1, 2, 3], [("abc", true, .slice (S3 0) []), ("", true, .byte 0)], .error e))) :=
  ⟨Or.inr ⟨by decide, by decide, _, rfl⟩,
    unpackFields_no_policy "abc" true [1, 2, 3] [] 2 1 (S3 0) [] [("", true, .byte 0)]
      (Or.inr ⟨by decide, by decide, _, rfl⟩)⟩

theorem no_policy_examples :
    Unpack [1, 2, 3] (.struct [("", true, .byte 0), ("", true, .bytes [])])
      = ([2, 3], .struct [("", true, .byte 1), ("", true, .bytes [])], .error .noTag) ∧
    Unpack [1, 2, 3] (.struct [("", true, .byte 0), ("x5", true, .slice (S3 0) [])])
      = ([2, 3], .struct [("", true, .byte 1), ("x5", true, .slice (S3 0) [])],
          .error (.atoi "x5")) := by
  constructor <;> rfl

/-! ## Values that are not records -/

/-- C14. NotARecord: `Pack` of a value that is not a struct, and `Unpack` into a
value that is not a struct, return the error `must be struct`; the sink is as
it was, the reader holds every byte it held and the value is unchanged. -/
theorem not_a_record (v : Value) (buf : Sink) (src : List Nat)
    (h : ∀ fields, v ≠ .struct fields) :
    Pack buf v = (buf, .error .mustBeStruct) ∧ Unpack src v = (src, v, .error .mustBeStruct) := by
  cases v with
  | struct fields => exact absurd rfl (h fields)
  | _ => exact ⟨by rfl, by rfl⟩

theorem not_a_record_witness :
    (∀ fields, Value.u32 7 ≠ .struct fields) ∧
    (Pack Sink.buffer (.u32 7) = (Sink.buffer, .error .mustBeStruct) ∧
      Unpack [1, 2, 3, 4] (.u32 7) = ([1, 2, 3, 4], .u32 7, .error .mustBeStruct)) :=
  ⟨(fun _ h => by cases h),
    not_a_record (.u32 7) Sink.buffer [1, 2, 3, 4] (fun _ h => by cases h)⟩

/-! ## Decoding trusts the marker byte -/

/-- C15. Varint decoding trusts the marker byte: `byte2varint` returns `x` on `0xFD`
and the 2 little-endian bytes of a 16-bit `x`, `y` on `0xFE` and the 4 bytes of
a 32-bit `y`, `z` on `0xFF` and the 8 bytes of a 64-bit `z`, however small the
value, and `b` on a single first byte `b ≤ 0xFC`; so `[0x01]` and
`[0xFD, 0x01, 0x00]` decode to the same value. -/
theorem byte2varint_trusts_marker (x y z b : Nat) (t : List Nat) (hx : x < 2 ^ 16)
    (hy : y < 2 ^ 32) (hz : z < 2 ^ 64) (hb : b ≤ 0xFC) :
    byte2varint (0xFD :: leBytes 2 x ++ t) = (.ok x, t) ∧
    byte2varint (0xFE :: leBytes 4 y ++ t) = (.ok y, t) ∧
    byte2varint (0xFF :: leBytes 8 z ++ t) = (.ok z, t) ∧
    byte2varint (b :: t) = (.ok b, t) ∧
    byte2varint [0x01] = (.ok 1, []) ∧ byte2varint [0xFD, 0x01, 0x00] = (.ok 1, []) := by
  have r2 := readFull_append_of_length (putLE 2 x) t 2 (putLE_length 2 x)
  have r4 := readFull_append_of_length (putLE 4 y) t 4 (putLE_length 4 y)
  have r8 := readFull_append_of_length (putLE 8 z) t 8 (putLE_length 8 z)
  have g2 := getLE_putLE 2 x (by norm_num at hx ⊢; omega)
  have g4 := getLE_putLE 4 y (by norm_num at hy ⊢; omega)
  have g8 := getLE_putLE 8 z (by norm_num at hz ⊢; omega)
  have b1 : ¬ b = 0xfd := by omega
  have b2 : ¬ b = 0xfe := by omega
  have b3 : ¬ b = 0xff := by omega
  refine ⟨?_, ?_, ?_, ?_, by rfl, by rfl⟩
  · rw [← putLE_eq_leBytes, byte2varint, List.cons_append, readFull_one_cons]
    simp only [List.headD_cons, if_true, r2, g2]
  · rw [← putLE_eq_leBytes, byte2varint, List.cons_append, readFull_one_cons]
    simp only [List.headD_cons, r4, g4]
    simp
  · rw [← putLE_eq_leBytes, byte2varint, List.cons_append, readFull_one_cons]
    simp only [List.headD_cons, r8, g8]
    simp
  · rw [byte2varint_cons, if_neg b1, if_neg b2, if_neg b3]

theorem byte2varint_trusts_marker_witness :
    ((1 : Nat) < 2 ^ 16 ∧ (2 : Nat) < 2 ^ 32 ∧ (3 : Nat) < 2 ^ 64 ∧ (4 : Nat) ≤ 0xFC) ∧
    (byte2varint (0xFD :: leBytes 2 1 ++ [9]) = (.ok 1, [9]) ∧
    byte2varint (0xFE :: leBytes 4 2 ++ [9]) = (.ok 2, [9]) ∧
    byte2varint (0xFF :: leBytes 8 3 ++ [9]) = (.ok 3, [9]) ∧
    byte2varint (4 :: [9]) = (.ok 4, [9]) ∧
    byte2varint [0x01] = (.ok 1, []) ∧ byte2varint [0xFD, 0x01, 0x00] = (.ok 1, [])) :=
  ⟨⟨by decide, by decide, by decide, by decide⟩,
    byte2varint_trusts_marker 1 2 3 4 [9] (by decide) (by decide) (by decide) (by decide)⟩

/-! ## The bool codec -/

/-- C18. Bool codec: `Pack` writes a bool field as the one byte 1 for true and 0 for
false; `Unpack` reads exactly one byte and yields false for 0 and true for any
other byte; so `Unpack` after `Pack` gives the bool back, and `Pack` after
`Unpack` writes 1 for every non-zero byte. -/
theorem bool_codec (tag : String) (val i x : Nat) (b old : Bool) (cs : List (List Nat))
    (rest : List Nat) :
    packField ⟨cs, none⟩ val i (tag, true, .bool b)
      = (⟨cs ++ [[if b then 1 else 0]], none⟩, val, .ok) ∧
    unpackField (x :: rest) val i (tag, true, .bool old)
      = (rest, val, .bool (if x = 0 then false else true), .ok) ∧
    unpackField ((if b then 1 else 0) :: rest) val i (tag, true, .bool old)
      = (rest, val, .bool b, .ok) ∧
    packField ⟨cs, none⟩ val i
        (tag, true, (unpackField (x :: rest) val i (tag, true, .bool old)).2.2.1)
      = (⟨cs ++ [[if x = 0 then 0 else 1]], none⟩, val, .ok) := by
  have hu : unpackField (x :: rest) val i (tag, true, .bool old)
      = (rest, val, .bool (if x = 0 then false else true), .ok) := by
    simp only [unpackField, readFull_one_cons, List.headD_cons]
  refine ⟨?_, hu, ?_, ?_⟩
  · cases b <;> simp [packField, flush, Sink.write]
  · cases b <;> simp [unpackField, readFull_one_cons]
  · rw [hu]
    by_cases hx : x = 0 <;> simp [hx, packField, flush, Sink.write]

/-! ## Exact consumption -/

/-- C19. Exact consumption: for every well-formed record `r`, every record `v0` of
the same type and every byte string `t`, `Unpack` on a source holding the
bytes `Pack` wrote for `r` followed by `t` succeeds, yields `r` and leaves
exactly `t` unread. -/
theorem Unpack_exact_consumption (r v0 : Value) (t : List Nat) (hw : WellFormed r)
    (hz : zero v0 = zero r) :
    ∃ buf, Pack Sink.buffer r = (buf, .ok) ∧ Unpack (buf.bytes ++ t) v0 = (t, r, .ok) := by
  obtain ⟨buf, hp, _⟩ := Pack_ok r hw Sink.buffer rfl
  refine ⟨buf, hp, ?_⟩
  have hb := Pack_wire r Sink.buffer buf hp
  simp only [Sink.buffer, Sink.bytes, List.flatten_nil, List.nil_append] at hb
  rw [Sink.bytes, hb]
  exact Unpack_wire r hw v0 t hz

theorem Unpack_exact_consumption_witness :
    (WellFormed s1 ∧ zero s2 = zero s1) ∧
    ∃ buf, Pack Sink.buffer s1 = (buf, .ok) ∧
      Unpack (buf.bytes ++ [0xde, 0xad]) s2 = ([0xde, 0xad], s1, .ok) :=
  ⟨⟨s1_wellFormed, rfl⟩, Unpack_exact_consumption s1 s2 [0xde, 0xad] s1_wellFormed rfl⟩

theorem back_to_back_example :
    Unpack (result ++ result) s2 = (result, s1, .ok) ∧
    Unpack (Unpack (result ++ result) s2).1 s2 = ([], s1, .ok) := by
  constructor <;> rfl

/-! ## Hostile lengths -/

theorem intOfUint64_neg (v : Nat) (h1 : 2 ^ 63 ≤ v) (h2 : v < 2 ^ 64) : intOfUint64 v < 0 := by
  unfold intOfUint64
  have : ¬ v < 2 ^ 63 := by omega
  rw [if_neg this]
  have h3 : (v : Int) < 2 ^ 64 := by exact_mod_cast h2
  omega

/-- C20 on its failing input. A record whose only field is a byte sequence tagged
`prefix` is decoded from the varint `2 ^ 63`: `getTagValue` resolves the
negative count `-2 ^ 63`, where the claim has a non-negative count equal to the
value read, and `Unpack` panics in `make`, where the claim has it return an
error. The same happens for a string, and for a carry-over field after a
`uint64` holding `2 ^ 63`. -/
theorem Unpack_hostile_length :
    getTagValue prefixTag 0 [0xff, 0, 0, 0, 0, 0, 0, 0, 0x80] = (.ok (-(2 ^ 63)), []) ∧
    Unpack [0xff, 0, 0, 0, 0, 0, 0, 0, 0x80] (.struct [("prefix", true, .bytes [])])
      = ([], .struct [("prefix", true, .bytes [])], .panic) ∧
    Unpack [0xff, 0, 0, 0, 0, 0, 0, 0, 0x80] (.struct [("", true, .str [])])
      = ([], .struct [("", true, .str [])], .panic) ∧
    Unpack [0, 0, 0, 0, 0, 0, 0, 0x80]
        (.struct [("", true, .u64 0), ("lastnum", true, .slice (S3 0) [])])
      = ([], .struct [("", true, .u64 (2 ^ 63)), ("lastnum", true, .slice (S3 0) [])],
          .panic) := by
  refine ⟨by rfl, by rfl, by rfl, by rfl⟩

/-! ## The last numeric value -/

theorem register_of_isNumeric (v : Value) (a b : Nat) (h : isNumeric v = true) :
    register a v = register b v := by
  cases v <;> simp [isNumeric] at h <;> rfl

theorem register_of_not_isNumeric (v : Value) (a : Nat) (h : isNumeric v = false) :
    register a v = a := by
  cases v <;> simp [isNumeric] at h <;> rfl

theorem lastNumericFrom_cons (val : Nat) (f : String × Bool × Value)
    (rest : List (String × Bool × Value)) :
    lastNumericFrom val (f :: rest) = lastNumericFrom (register val f.2.2) rest := by
  unfold lastNumericFrom
  rw [List.reverse_cons, List.find?_append]
  cases hr : rest.reverse.find? (fun f => isNumeric f.2.2) with
  | some g =>
    have hg : isNumeric g.2.2 = true := by
      have := List.find?_some hr
      simpa using this
    simp only [Option.or_some]
    exact register_of_isNumeric _ _ _ hg
  | none =>
    simp only [Option.none_or, List.find?_cons, List.find?_nil]
    cases hf : isNumeric f.2.2 with
    | true => rfl
    | false => simp only [register_of_not_isNumeric _ _ hf]

theorem lastNumericFrom_of_not_isNumeric (val : Nat) (pre : List (String × Bool × Value))
    (h : ∀ f ∈ pre, isNumeric f.2.2 = false) : lastNumericFrom val pre = val := by
  induction pre generalizing val with
  | nil => rfl
  | cons f rest ih =>
    rw [lastNumericFrom_cons, register_of_not_isNumeric _ _ (h f (List.mem_cons_self _ _))]
    exact ih val (fun g hg => h g (List.mem_cons_of_mem _ hg))

theorem packFields_append : ∀ (pre rest : List (String × Bool × Value)) (buf : Sink)
    (val i : Nat),
    packFields buf val i (pre ++ rest) =
      match packFields buf val i pre with
      | (b, .ok) => packFields b (lastNumericFrom val pre) (i + pre.length) rest
      | (b, o) => (b, o)
  | [], rest, buf, val, i => by
    simp [packFields, lastNumericFrom]
  | f :: pre, rest, buf, val, i => by
    rcases hf : packField buf val i f with ⟨b1, v1, o1⟩
    cases o1 with
    | ok =>
      have hv := (packField_wire f buf val i b1 v1 hf).2
      subst hv
      have ih := packFields_append pre rest b1 (register val f.2.2) (i + 1)
      have : i + 1 + pre.length = i + (pre.length + 1) := by omega
      show packFields buf val i (f :: (pre ++ rest)) = _
      simp only [packFields, hf, lastNumericFrom_cons, List.length_cons]
      rw [ih, this]
    | error e =>
      show packFields buf val i (f :: (pre ++ rest)) = _
      simp only [packFields, hf]
    | panic =>
      show packFields buf val i (f :: (pre ++ rest)) = _
      simp only [packFields, hf]

theorem unpackField_register (buf : List Nat) (val i : Nat) (f : String × Bool × Value)
    (r : List Nat) (val2 : Nat) (v2 : Value)
    (h : unpackField buf val i f = (r, val2, v2, .ok)) : val2 = register val v2 := by
  obtain ⟨tag, exported, v⟩ := f
  cases exported with
  | false => simp [unpackField] at h
  | true =>
    cases v with
    | struct g =>
      simp only [unpackField, Unpack, Prod.mk.injEq] at h
      obtain ⟨_, h2, h3, _⟩ := h
      rw [← h2, ← h3]
      rfl
    | slice elem old =>
      rcases hm : makeValueFromTag tag val buf with ⟨res, r0⟩
      cases res with
      | error e => simp [unpackField, hm] at h
      | panic => simp [unpackField, hm] at h
      | ok n =>
        rcases hu : unpackElems (fun s => Unpack s elem) n r0 with ⟨r2, newv, o2⟩
        cases o2 with
        | ok =>
          simp only [unpackField, hm, hu, Prod.mk.injEq] at h
          obtain ⟨_, h2, h3, _⟩ := h
          rw [← h2, ← h3]
          rfl
        | error e => simp [unpackField, hm, hu] at h
        | panic => simp [unpackField, hm, hu] at h
    | str old =>
      simp only [unpackField] at h
      split at h
      · simp at h
      · split at h
        · split at h
          · simp at h
          · simp only [Prod.mk.injEq] at h
            obtain ⟨_, h2, h3, _⟩ := h
            rw [← h2, ← h3]
            rfl
        · simp at h
    | bytes old =>
      simp only [unpackField] at h
      split at h
      · simp at h
      · simp at h
      · split at h
        · simp at h
        · simp only [Prod.mk.injEq] at h
          obtain ⟨_, h2, h3, _⟩ := h
          rw [← h2, ← h3]
          rfl
    | other => simp [unpackField] at h
    | u64 old | u32 old | u16 old | byte old | bool old | varint old =>
      simp only [unpackField] at h
      split at h
      · simp at h
      · simp only [Prod.mk.injEq] at h
        obtain ⟨_, h2, h3, _⟩ := h
        rw [← h2, ← h3]
        rfl

theorem unpackFields_append : ∀ (pre rest : List (String × Bool × Value)) (buf : List Nat)
    (val i : Nat),
    unpackFields buf val i (pre ++ rest) =
      match unpackFields buf val i pre with
      | (r, pre2, .ok) =>
        match unpackFields r (lastNumericFrom val pre2) (i + pre.length) rest with
        | (r2, rest2, o) => (r2, pre2 ++ rest2, o)
      | (r, pre2, o) => (r, pre2 ++ rest, o)
  | [], rest, buf, val, i => by
    simp [unpackFields, lastNumericFrom]
  | f :: pre, rest, buf, val, i => by
    rcases hf : unpackField buf val i f with ⟨r1, v1, w1, o1⟩
    cases o1 with
    | ok =>
      have hv := unpackField_register buf val i f r1 v1 w1 hf
      subst hv
      have ih := unpackFields_append pre rest r1 (register val w1) (i + 1)
      rcases hp : unpackFields r1 (register val w1) (i + 1) pre with ⟨r2, pre2, o2⟩
      rw [hp] at ih
      have : i + 1 + pre.length = i + (pre.length + 1) := by omega
      show unpackFields buf val i (f :: (pre ++ rest)) = _
      simp only [unpackFields, hf, hp, ih]
      cases o2 with
      | ok => simp only [lastNumericFrom_cons, List.length_cons, this, List.cons_append]
      | error e => simp only [List.cons_append]
      | panic => simp only [List.cons_append]
    | error e =>
      show unpackFields buf val i (f :: (pre ++ rest)) = _
      simp only [unpackFields, hf, List.cons_append]
    | panic =>
      show unpackFields buf val i (f :: (pre ++ rest)) = _
      simp only [unpackFields, hf, List.cons_append]

theorem unpackElems_length (dec : List Nat → List Nat × Value × Outcome) :
    ∀ (n : Nat) (buf r : List Nat) (vs : List Value),
    unpackElems dec n buf = (r, vs, .ok) → vs.length = n
  | 0, buf, r, vs, h => by
    simp only [unpackElems, Prod.mk.injEq] at h
    rw [← h.2.1]
    rfl
  | n + 1, buf, r, vs, h => by
    rcases hd : dec buf with ⟨r1, v1, o1⟩
    cases o1 with
    | ok =>
      rcases hr : unpackElems dec n r1 with ⟨r2, vs2, o2⟩
      simp only [unpackElems, hd, hr, Prod.mk.injEq] at h
      obtain ⟨_, h2, h3⟩ := h
      subst h3
      rw [← h2, List.length_cons, unpackElems_length dec n r1 r2 vs2 hr]
    | error e => simp [unpackElems, hd] at h
    | panic => simp [unpackElems, hd] at h

theorem unpackField_isNumeric (buf : List Nat) (val i : Nat) (f : String × Bool × Value)
    (r : List Nat) (val2 : Nat) (v2 : Value) (o : Outcome)
    (h : unpackField buf val i f = (r, val2, v2, o)) : isNumeric v2 = isNumeric f.2.2 := by
  obtain ⟨tag, exported, v⟩ := f
  cases exported with
  | false =>
    simp only [unpackField, Prod.mk.injEq] at h
    rw [← h.2.2.1]
  | true =>
    cases v with
    | struct g =>
      simp only [unpackField, Unpack, Prod.mk.injEq] at h
      rw [← h.2.2.1]
      rfl
    | other =>
      simp only [unpackField, Prod.mk.injEq] at h
      rw [← h.2.2.1]
    | slice elem old =>
      simp only [unpackField] at h
      repeat' split at h
      all_goals
        simp only [Prod.mk.injEq] at h
        rw [← h.2.2.1]
        try rfl
    | str old =>
      simp only [unpackField] at h
      repeat' split at h
      all_goals
        simp only [Prod.mk.injEq] at h
        rw [← h.2.2.1]
        try rfl
    | bytes old =>
      simp only [unpackField] at h
      repeat' split at h
      all_goals
        simp only [Prod.mk.injEq] at h
        rw [← h.2.2.1]
        try rfl
    | u64 old | u32 old | u16 old | byte old | bool old | varint old =>
      simp only [unpackField] at h
      repeat' split at h
      all_goals
        simp only [Prod.mk.injEq] at h
        rw [← h.2.2.1]
        try rfl

theorem unpackFields_not_isNumeric : ∀ (fs : List (String × Bool × Value)) (buf : List Nat)
    (val i : Nat) (r : List Nat) (fs2 : List (String × Bool × Value)) (o : Outcome),
    (∀ f ∈ fs, isNumeric f.2.2 = false) → unpackFields buf val i fs = (r, fs2, o) →
    ∀ f ∈ fs2, isNumeric f.2.2 = false
  | [], buf, val, i, r, fs2, o, _, h => by
    simp only [unpackFields, Prod.mk.injEq] at h
    rw [← h.2.1]
    simp
  | f :: rest, buf, val, i, r, fs2, o, hn, h => by
    rcases hf : unpackField buf val i f with ⟨r1, v1, w1, o1⟩
    have hw1 : isNumeric w1 = false := by
      rw [unpackField_isNumeric buf val i f r1 v1 w1 o1 hf]
      exact hn f (List.mem_cons_self _ _)
    have hrest : ∀ g ∈ rest, isNumeric g.2.2 = false :=
      fun g hg => hn g (List.mem_cons_of_mem _ hg)
    cases o1 with
    | ok =>
      rcases hr : unpackFields r1 v1 (i + 1) rest with ⟨r2, rest2, o2⟩
      simp only [unpackFields, hf, hr, Prod.mk.injEq] at h
      have ih := unpackFields_not_isNumeric rest r1 v1 (i + 1) r2 rest2 o2 hrest hr
      rw [← h.2.1]
      intro g hg
      rcases List.mem_cons.1 hg with hg | hg
      · rw [hg]; exact hw1
      · exact ih g hg
    | error e =>
      simp only [unpackFields, hf, Prod.mk.injEq] at h
      rw [← h.2.1]
      intro g hg
      rcases List.mem_cons.1 hg with hg | hg
      · rw [hg]; exact hw1
      · exact hrest g hg
    | panic =>
      simp only [unpackFields, hf, Prod.mk.injEq] at h
      rw [← h.2.1]
      intro g hg
      rcases List.mem_cons.1 hg with hg | hg
      · rw [hg]; exact hw1
      · exact hrest g hg

theorem getTagValue_of_ne_lastnumTag (tag : String) (val val2 : Nat) (buf : List Nat)
    (h : tag ≠ lastnumTag) : getTagValue tag val buf = getTagValue tag val2 buf := by
  unfold getTagValue
  rw [if_neg h, if_neg h]

theorem makeValueFromTag_carryOver_eq_fixed (tagN : String) (valN val2 : Nat) (buf : List Nat)
    (h : policyOf tagN = some (.fixed valN)) :
    makeValueFromTag lastnumTag valN buf = makeValueFromTag tagN val2 buf := by
  obtain ⟨h1, h2, h3, h4⟩ := (policyOf_fixed tagN valN).1 h
  have hlt : valN < 2 ^ 63 := by
    have := atoi_lt tagN valN h4
    omega
  unfold makeValueFromTag getTagValue
  rw [if_pos rfl, if_neg h1, if_neg h2, if_neg h3, h4, intOfUint64_of_lt valN hlt]

/-- C12. Register scoping: every record walk of `Pack` and of `Unpack` starts with
the last numeric value 0; the walk of a nested record and the walk of every
element of a record sequence start at 0 and do not depend on the last numeric
value `val` of the parent, and after a nested record or a record sequence the
parent still holds `val`; a carry-over byte sequence in such a walk, preceded
there by no numeric field, is reached with the value 0 and is packed as no
bytes and unpacked as no bytes. -/
theorem register_scoping (fs pre rest : List (String × Bool × Value)) (buf b : Sink)
    (src r : List Nat) (val i k m valN : Nat) (tag tagF tagN : String) (elem : Value)
    (items olds : List Value) (d old : List Nat)
    (hn : ∀ f ∈ pre, isNumeric f.2.2 = false) :
    Pack buf (.struct fs) = packFields buf 0 0 fs ∧
    Unpack src (.struct fs)
      = ((unpackFields src 0 0 fs).1, .struct (unpackFields src 0 0 fs).2.1,
          (unpackFields src 0 0 fs).2.2) ∧
    packField buf val i (tag, true, .struct fs)
      = ((packFields buf 0 0 fs).1, val, (packFields buf 0 0 fs).2) ∧
    unpackField src val i (tag, true, .struct fs)
      = ((unpackFields src 0 0 fs).1, val, .struct (unpackFields src 0 0 fs).2.1,
          (unpackFields src 0 0 fs).2.2) ∧
    packField buf val i (tag, true, .slice elem items)
      = ((packField buf 0 i (tag, true, .slice elem items)).1, val,
          (packField buf 0 i (tag, true, .slice elem items)).2.2) ∧
    (unpackField src val i (tag, true, .slice elem olds)).2.1 = val ∧
    Pack buf (.struct (pre ++ (lastnumTag, true, .bytes d) :: rest))
      = (match packFields buf 0 0 pre with
        | (b1, .ok) => packFields b1 0 pre.length ((lastnumTag, true, .bytes d) :: rest)
        | (b1, o) => (b1, o)) ∧
    packField b 0 k (lastnumTag, true, .bytes d) = flush b 0 (some []) ∧
    Unpack src (.struct (pre ++ (lastnumTag, true, .bytes old) :: rest))
      = (match unpackFields src 0 0 pre with
        | (r1, pre2, .ok) =>
          match unpackFields r1 0 pre.length ((lastnumTag, true, .bytes old) :: rest) with
          | (r2, rest2, o) => (r2, .struct (pre2 ++ rest2), o)
        | (r1, pre2, o) => (r1, .struct (pre2 ++ (lastnumTag, true, .bytes old) :: rest), o)) ∧
    unpackField r 0 k (lastnumTag, true, .bytes old) = (r, 0, .bytes [], .ok) ∧
    packField buf val i (tag, true, .slice elem items)
      = (match (if tag = prefixTag then buf.write (int2varint items.length) else some buf) with
        | none => (buf, val, .error .writeFailed)
        | some b1 => ((packElems b1 items).1, val, (packElems b1 items).2)) ∧
    packElems buf (.struct fs :: items)
      = (match packFields buf 0 0 fs with
        | (b1, .ok) => packElems b1 items
        | (b1, o) => (b1, o)) ∧
    unpackField src val i (tag, true, .slice elem olds)
      = (match makeValueFromTag tag val src with
        | (.error e, r1) => (r1, val, .slice elem olds, .error e)
        | (.panic, r1) => (r1, val, .slice elem olds, .panic)
        | (.ok n, r1) =>
          match unpackElems (fun s => Unpack s elem) n r1 with
          | (r2, newv, .ok) => (r2, val, .slice elem newv, .ok)
          | (r2, _, o) => (r2, val, .slice elem olds, o)) ∧
    unpackElems (fun s => Unpack s (.struct fs)) (m + 1) src
      = (match unpackFields src 0 0 fs with
        | (r1, fs2, .ok) =>
          match unpackElems (fun s => Unpack s (.struct fs)) m r1 with
          | (r2, vs, o) => (r2, .struct fs2 :: vs, o)
        | (r1, _, o) => (r1, [], o)) ∧
    (tagF ≠ lastnumTag →
      unpackField src val i (tagF, true, .slice elem olds)
        = ((unpackField src 0 i (tagF, true, .slice elem olds)).1, val,
            (unpackField src 0 i (tagF, true, .slice elem olds)).2.2.1,
            (unpackField src 0 i (tagF, true, .slice elem olds)).2.2.2)) ∧
    (policyOf tagN = some (.fixed valN) →
      unpackField src valN i (lastnumTag, true, .slice elem olds)
        = ((unpackField src 0 i (tagN, true, .slice elem olds)).1, valN,
            (unpackField src 0 i (tagN, true, .slice elem olds)).2.2.1,
            (unpackField src 0 i (tagN, true, .slice elem olds)).2.2.2)) := by
  have slice_val : ∀ (t1 t2 : String) (v1 v2 : Nat),
      makeValueFromTag t1 v1 src = makeValueFromTag t2 v2 src →
      unpackField src v1 i (t1, true, .slice elem olds)
        = ((unpackField src v2 i (t2, true, .slice elem olds)).1, v1,
            (unpackField src v2 i (t2, true, .slice elem olds)).2.2.1,
            (unpackField src v2 i (t2, true, .slice elem olds)).2.2.2) := by
    intro t1 t2 v1 v2 hm
    simp only [unpackField, hm]
    rcases hm2 : makeValueFromTag t2 v2 src with ⟨res, r0⟩
    cases res with
    | error e => rfl
    | panic => rfl
    | ok n =>
      dsimp only
      rcases hu : unpackElems (fun s => Unpack s elem) n r0 with ⟨r2, newv, o2⟩
      cases o2 <;> rfl
  refine ⟨by rw [Pack], by rw [Unpack], ?_, ?_, ?_, ?_, ?_, ?_, ?_, ?_, ?_, ?_, ?_, ?_, ?_, ?_⟩
  · rw [packField, Pack]
    rcases hp : packFields buf 0 0 fs with ⟨b1, o1⟩
    cases o1 <;> rfl
  · rw [unpackField, Unpack]
  · simp only [packField]
    cases hw : (if tag = prefixTag then buf.write (int2varint items.length) else some buf) with
    | none => rfl
    | some b1 =>
      dsimp only
      rcases hp : packElems b1 items with ⟨b2, o2⟩
      cases o2 <;> rfl
  · simp only [unpackField]
    rcases hm : makeValueFromTag tag val src with ⟨res, r0⟩
    cases res with
    | error e => rfl
    | panic => rfl
    | ok n =>
      dsimp only
      rcases hu : unpackElems (fun s => Unpack s elem) n r0 with ⟨r2, newv, o2⟩
      cases o2 <;> rfl
  · rw [Pack, packFields_append, lastNumericFrom_of_not_isNumeric 0 pre hn, Nat.zero_add]
  · have hm : makeBytesFromTagForPack lastnumTag 0 d = .ok [] := by
      unfold makeBytesFromTagForPack
      rw [if_pos rfl, if_pos (by norm_num), copy_replicate]
      simp [padTo]
    rw [packField, hm]
  · rw [Unpack, unpackFields_append]
    rcases hp : unpackFields src 0 0 pre with ⟨r1, pre2, o1⟩
    cases o1 with
    | ok =>
      have h0 := unpackFields_not_isNumeric pre src 0 0 r1 pre2 .ok hn hp
      simp only [lastNumericFrom_of_not_isNumeric 0 pre2 h0, Nat.zero_add]
    | error e => rfl
    | panic => rfl
  · have hm : makeBytesFromTag lastnumTag 0 r = (.ok [], r) := by
      unfold makeBytesFromTag getTagValue
      rw [if_pos rfl]
      rfl
    have hr : readFull r 0 = (.ok [], r) := by simp [readFull]
    simp only [unpackField, hm, List.length_nil, hr]
  · simp only [packField]
    cases (if tag = prefixTag then buf.write (int2varint items.length) else some buf) with
    | none => rfl
    | some b1 =>
      dsimp only
      rcases hp : packElems b1 items with ⟨b2, o2⟩
      cases o2 <;> rfl
  · rw [packElems, Pack]
  · rw [unpackField]
  · simp only [unpackElems, Unpack]
    rcases hp : unpackFields src 0 0 fs with ⟨r1, fs2, o1⟩
    cases o1 <;> rfl
  · intro hF
    apply slice_val
    unfold makeValueFromTag
    rw [getTagValue_of_ne_lastnumTag tagF val 0 src hF]
  · intro hN
    apply slice_val
    exact makeValueFromTag_carryOver_eq_fixed tagN valN 0 src hN

theorem register_scoping_witness :
    (∀ f ∈ [(("", true, .bool true) : String × Bool × Value), ("", true, .str [0x61])],
      isNumeric f.2.2 = false) ∧
    Unpack [2, 7, 7, 7]
        (.struct [("", true, .byte 0),
          ("2", true, .slice (.struct [("lastnum", true, .bytes []), ("", true, .byte 0)]) [])])
      = ([7], .struct [("", true, .byte 2),
          ("2", true, .slice (.struct [("lastnum", true, .bytes []), ("", true, .byte 0)])
            [.struct [("lastnum", true, .bytes []), ("", true, .byte 7)],
              .struct [("lastnum", true, .bytes []), ("", true, .byte 7)]])], .ok) ∧
    (Pack Sink.buffer (.struct [("", true, .byte 2),
        ("2", true, .slice (.struct [("lastnum", true, .bytes []), ("", true, .byte 0)])
          [.struct [("lastnum", true, .bytes [1, 2]), ("", true, .byte 7)],
            .struct [("lastnum", true, .bytes [3, 4]), ("", true, .byte 8)]])])).1.bytes
      = [2, 7, 8] ∧
    Pack Sink.buffer (.struct ([("", true, .bool true), ("", true, .str [0x61])]
        ++ (lastnumTag, true, .bytes [1, 2, 3]) :: [("", true, .byte 5)]))
      = (match packFields Sink.buffer 0 0 [("", true, .bool true), ("", true, .str [0x61])] with
        | (b1, .ok) =>
          packFields b1 0 [(("", true, .bool true) : String × Bool × Value),
            ("", true, .str [0x61])].length
            ((lastnumTag, true, .bytes [1, 2, 3]) :: [("", true, .byte 5)])
        | (b1, o) => (b1, o)) ∧
    unpackField [7, 7, 7] 2 1
        ("2", true, .slice (.struct [("lastnum", true, .bytes []), ("", true, .byte 0)]) [])
      = ((unpackField [7, 7, 7] 0 1 ("2", true,
            .slice (.struct [("lastnum", true, .bytes []), ("", true, .byte 0)]) [])).1, 2,
          (unpackField [7, 7, 7] 0 1 ("2", true,
            .slice (.struct [("lastnum", true, .bytes []), ("", true, .byte 0)]) [])).2.2.1,
          (unpackField [7, 7, 7] 0 1 ("2", true,
            .slice (.struct [("lastnum", true, .bytes []), ("", true, .byte 0)]) [])).2.2.2) :=
  ⟨by decide, by rfl, by decide,
    (register_scoping [] [("", true, .bool true), ("", true, .str [0x61])]
      [("", true, .byte 5)] Sink.buffer Sink.buffer [7, 7, 7] [] 2 1 0 0 2 "" "2" "2"
      (.struct [("lastnum", true, .bytes []), ("", true, .byte 0)]) [] [] [1, 2, 3] []
      (by decide)).2.2.2.2.2.2.1,
    (register_scoping [] [("", true, .bool true), ("", true, .str [0x61])]
      [("", true, .byte 5)] Sink.buffer Sink.buffer [7, 7, 7] [] 2 1 0 0 2 "" "2" "2"
      (.struct [("lastnum", true, .bytes []), ("", true, .byte 0)]) [] [] [1, 2, 3] []
      (by decide)).2.2.2.2.2.2.2.2.2.2.2.2.2.2.1 (by decide)⟩

theorem scoping_examples :
    (Pack Sink.buffer (.struct [("", true, .u16 3),
        ("", true, .struct [("lastnum", true, .bytes [1, 2, 3])])])).1.bytes = [3, 0] ∧
    (Pack Sink.buffer (.struct [("", true, .u16 3),
        ("", true, .struct [("", true, .byte 9)]),
        ("lastnum", true, .bytes [1, 2, 3, 4])])).1.bytes = [3, 0, 9, 1, 2, 3] ∧
    (Pack Sink.buffer (.struct [("", true, .u16 3),
        ("prefix", true, .slice (S3 0) [S3 9, S3 8]),
        ("lastnum", true, .bytes [1, 2, 3, 4])])).1.bytes = [3, 0, 2, 9, 8, 1, 2, 3] ∧
    Unpack [3, 0, 7, 7, 7]
        (.struct [("", true, .u16 0), ("", true, .struct [("lastnum", true, .bytes [])])])
      = ([7, 7, 7], .struct [("", true, .u16 3),
          ("", true, .struct [("lastnum", true, .bytes [])])], .ok) ∧
    Unpack [3, 0, 9, 1, 2, 3]
        (.struct [("", true, .u16 0), ("", true, .struct [("", true, .byte 0)]),
          ("lastnum", true, .bytes [])])
      = ([], .struct [("", true, .u16 3), ("", true, .struct [("", true, .byte 9)]),
          ("lastnum", true, .bytes [1, 2, 3])], .ok) := by
  refine ⟨by decide, by decide, by decide, by rfl, by rfl⟩

theorem carry_over_examples :
    lastNumeric [("", true, .u16 3), ("", true, .bool true), ("", true, .str [0x61]),
      ("prefix", true, .bytes [1, 2, 3, 4, 5])] = 3 ∧
    lastNumeric [("", true, .u16 3), ("", true, .varint 0x1234), ("", true, .bool true)]
      = 0x1234 ∧
    (Pack Sink.buffer (.struct [("", true, .u16 3), ("", true, .bool true),
        ("", true, .str [0x61, 0x62, 0x63, 0x64]), ("prefix", true, .bytes [1, 2, 3, 4, 5]),
        ("lastnum", true, .bytes [7, 8, 9, 10])])).1.bytes
      = [3, 0, 1, 4, 0x61, 0x62, 0x63, 0x64, 5, 1, 2, 3, 4, 5, 7, 8, 9] ∧
    Unpack [3, 0, 1, 4, 0x61, 0x62, 0x63, 0x64, 5, 1, 2, 3, 4, 5, 7, 8, 9]
        (.struct [("", true, .u16 0), ("", true, .bool false), ("", true, .str []),
          ("prefix", true, .bytes []), ("lastnum", true, .bytes [])])
      = ([], .struct [("", true, .u16 3), ("", true, .bool true),
          ("", true, .str [0x61, 0x62, 0x63, 0x64]), ("prefix", true, .bytes [1, 2, 3, 4, 5]),
          ("lastnum", true, .bytes [7, 8, 9])], .ok) := by
  refine ⟨by decide, by decide, by decide, by rfl⟩

/-! ## Record sequences on encode -/

theorem packElems_wire_ok (items : List Value) (elem : Value) (hw : wfElems elem items)
    (cs : List (List Nat)) :
    ∃ b, packElems ⟨cs, none⟩ items = (b, .ok) ∧ b.quota = none ∧
      b.bytes = cs.flatten ++ wireElems items := by
  obtain ⟨b, hb, hq⟩ := packElems_ok items elem hw ⟨cs, none⟩ rfl
  exact ⟨b, hb, hq, by simpa [Sink.bytes] using packElems_wire items ⟨cs, none⟩ b hb⟩

/-- C16. Record-sequence encoding: for a record-sequence field holding the
well-formed records `items`, whatever its tag and the last numeric value,
`Pack` writes the count as a varint only when the tag is `prefix`, and then
every element in order; under a fixed or carry-over tag the field is packed
as its elements alone, the resolved length `n` playing no part, while a
successful `Unpack` under that tag builds exactly `n` elements. -/
theorem record_sequence_encoding (tag tagN : String) (val val2 i n : Nat) (elem v2 : Value)
    (items olds : List Value) (cs : List (List Nat)) (buf : Sink) (src r : List Nat)
    (hw : wfElems elem items) (hv : val < 2 ^ 64)
    (hp : policyOf tagN = some (.fixed n) ∨ (policyOf tagN = some .carryOver ∧ n = val))
    (hu : unpackField src val i (tagN, true, .slice elem olds) = (r, val2, v2, .ok)) :
    (∃ b, packField ⟨cs, none⟩ val i (tag, true, .slice elem items) = (b, val, .ok) ∧
      b.bytes = cs.flatten
        ++ ((if tag = prefixTag then int2varint items.length else []) ++ wireElems items)) ∧
    packField buf val i (tagN, true, .slice elem items)
      = ((packElems buf items).1, val, (packElems buf items).2) ∧
    (∃ newv, v2 = .slice elem newv ∧ newv.length = n) := by
  have htN : tagN ≠ prefixTag := by
    intro hc
    have := (policyOf_prefixed tagN).2 hc
    rcases hp with hp | ⟨hp, _⟩ <;> rw [hp] at this <;> cases this
  refine ⟨?_, ?_, ?_⟩
  · rw [packField]
    by_cases ht : tag = prefixTag
    · rw [if_pos ht, if_pos ht, Sink.write_of_quota_none _ _ rfl]
      obtain ⟨b, hb, _, hbytes⟩ := packElems_wire_ok items elem hw (cs ++ [int2varint items.length])
      refine ⟨b, ?_, ?_⟩
      · simp only [hb, flush]
      · rw [hbytes]
        simp
    · rw [if_neg ht, if_neg ht]
      obtain ⟨b, hb, _, hbytes⟩ := packElems_wire_ok items elem hw cs
      refine ⟨b, ?_, ?_⟩
      · simp only [hb, flush]
      · rw [hbytes]
        simp
  · rw [packField, if_neg htN]
    dsimp only
    rcases hpe : packElems buf items with ⟨b2, o2⟩
    cases o2 <;> rfl
  · have hg : ∃ m : Int, getTagValue tagN val src = (.ok m, src) ∧ (0 ≤ m → m.toNat = n) := by
      rcases hp with hp | ⟨hp, hn⟩
      · obtain ⟨h1, h2, h3, h4⟩ := (policyOf_fixed tagN n).1 hp
        refine ⟨(n : Int), ?_, fun _ => Int.toNat_ofNat n⟩
        unfold getTagValue
        rw [if_neg h1, if_neg h2, if_neg h3, h4]
      · have ht := (policyOf_carryOver tagN).1 hp
        refine ⟨intOfUint64 val, ?_, ?_⟩
        · unfold getTagValue
          rw [if_pos ht]
        · intro h0
          by_cases hlt : val < 2 ^ 63
          · rw [intOfUint64_of_lt val hlt, hn]
            exact Int.toNat_ofNat val
          · have := intOfUint64_neg val (by omega) hv
            omega
    obtain ⟨m, hgm, hm⟩ := hg
    simp only [unpackField, makeValueFromTag, hgm] at hu
    by_cases hneg : m < 0
    · simp [hneg] at hu
    · simp only [hneg, if_false] at hu
      rcases hue : unpackElems (fun s => Unpack s elem) m.toNat src with ⟨r2, newv, o2⟩
      rw [hue] at hu
      cases o2 with
      | ok =>
        simp only [Prod.mk.injEq] at hu
        refine ⟨newv, hu.2.2.1.symm, ?_⟩
        rw [unpackElems_length _ _ _ _ _ hue]
        exact hm (by omega)
      | error e => simp at hu
      | panic => simp at hu

theorem record_sequence_encoding_witness :
    (wfElems (S3 0) [S3 1, S3 2, S3 3] ∧ (0 : Nat) < 2 ^ 64 ∧
      (policyOf "2" = some (.fixed 2) ∨ (policyOf "2" = some .carryOver ∧ 2 = 0)) ∧
      unpackField [1, 2, 3] 0 0 ("2", true, .slice (S3 0) [])
        = ([3], 0, .slice (S3 0) [S3 1, S3 2], .ok)) ∧
    ((∃ b, packField ⟨[], none⟩ 0 0 ("2", true, .slice (S3 0) [S3 1, S3 2, S3 3]) = (b, 0, .ok) ∧
      b.bytes = ([] : List (List Nat)).flatten
        ++ ((if "2" = prefixTag then int2varint [S3 1, S3 2, S3 3].length else [])
          ++ wireElems [S3 1, S3 2, S3 3])) ∧
    packField Sink.buffer 0 0 ("2", true, .slice (S3 0) [S3 1, S3 2, S3 3])
      = ((packElems Sink.buffer [S3 1, S3 2, S3 3]).1, 0,
          (packElems Sink.buffer [S3 1, S3 2, S3 3]).2) ∧
    (∃ newv, Value.slice (S3 0) [S3 1, S3 2] = .slice (S3 0) newv ∧ newv.length = 2)) :=
  ⟨⟨by simp [wfElems, WellFormed, wfFields, wfField, S3, zero, zeroFields], by decide,
      Or.inl (by decide), by rfl⟩,
    record_sequence_encoding "2" "2" 0 0 0 2 (S3 0) (.slice (S3 0) [S3 1, S3 2])
      [S3 1, S3 2, S3 3] [] [] Sink.buffer [1, 2, 3] [3]
      (by simp [wfElems, WellFormed, wfFields, wfField, S3, zero, zeroFields]) (by decide)
      (Or.inl (by decide)) (by rfl)⟩

theorem record_sequence_examples :
    (Pack Sink.buffer (.struct [("2", true, .slice (S3 0) [S3 1, S3 2, S3 3])])).1.bytes
      = [1, 2, 3] ∧
    (Pack Sink.buffer (.struct [("2", true, .slice (S3 0) [S3 1])])).1.bytes = [1] ∧
    (Pack Sink.buffer (.struct [("", true, .byte 1),
        ("lastnum", true, .slice (S3 0) [S3 7, S3 8])])).1.bytes = [1, 7, 8] ∧
    (Pack Sink.buffer (.struct [("prefix", true, .slice (S3 0) [S3 1, S3 2, S3 3])])).1.bytes
      = [3, 1, 2, 3] ∧
    Unpack [1, 2, 3] (.struct [("2", true, .slice (S3 0) [])])
      = ([3], .struct [("2", true, .slice (S3 0) [S3 1, S3 2])], .ok) := by
  refine ⟨by decide, by decide, by decide, by decide, by rfl⟩

/-! ## A sink that rejects a write -/

theorem hasCut_nil (run : Sink → Sink × Outcome) (cs : List (List Nat)) (o : Outcome)
    (h : ∀ buf, run buf = (buf, o)) : HasCut run cs [] o := by
  refine ⟨by simp [h], fun k => ?_⟩
  simp [h, cutAt]

theorem hasCut_single (run : Sink → Sink × Outcome) (cs : List (List Nat)) (p : List Nat)
    (h : ∀ buf, run buf
      = match buf.write p with
        | none => (buf, .error .writeFailed)
        | some b => (b, .ok)) : HasCut run cs [p] .ok := by
  refine ⟨by simp [h, Sink.write], fun k => ?_⟩
  cases k with
  | zero => simp [h, Sink.write, cutAt]
  | succ k => simp [h, Sink.write, cutAt]

theorem hasCut_seq (runA runB : Sink → Sink × Outcome) (cs ws1 ws2 : List (List Nat))
    (o2 : Outcome) (hA : HasCut runA cs ws1 .ok) (hB : HasCut runB (cs ++ ws1) ws2 o2) :
    HasCut (fun buf => match runA buf with
      | (b, .ok) => runB b
      | (b, o) => (b, o)) cs (ws1 ++ ws2) o2 := by
  refine ⟨?_, fun k => ?_⟩
  · simp only [hA.1, hB.1, List.append_assoc]
  · simp only [hA.2 k]
    unfold cutAt
    by_cases h1 : ws1.length ≤ k
    · simp only [h1, if_true, hB.2 (k - ws1.length)]
      unfold cutAt
      by_cases h2 : ws2.length ≤ k - ws1.length
      · have h3 : (ws1 ++ ws2).length ≤ k := by simp only [List.length_append]; omega
        have h4 : k - ws1.length - ws2.length = k - (ws1 ++ ws2).length := by
          simp only [List.length_append]; omega
        simp only [h2, h3, if_true, List.append_assoc, h4]
      · have h3 : ¬ (ws1 ++ ws2).length ≤ k := by simp only [List.length_append]; omega
        simp only [h2, h3, if_false, List.append_assoc, List.take_append_eq_append_take,
          List.take_of_length_le h1]
    · have h3 : ¬ (ws1 ++ ws2).length ≤ k := by simp only [List.length_append]; omega
      simp only [h1, h3, if_false]
      rw [List.take_append_of_le_length (by omega)]

theorem hasCut_stop (runA runB : Sink → Sink × Outcome) (cs ws1 : List (List Nat))
    (o1 : Outcome) (hA : HasCut runA cs ws1 o1) (ho : o1 ≠ .ok) :
    HasCut (fun buf => match runA buf with
      | (b, .ok) => runB b
      | (b, o) => (b, o)) cs ws1 o1 := by
  refine ⟨?_, fun k => ?_⟩
  · simp only [hA.1]
  · simp only [hA.2 k]
    unfold cutAt
    by_cases h1 : ws1.length ≤ k
    · simp only [h1, if_true]
    · simp only [h1, if_false]

theorem hasCut_congr (runA runB : Sink → Sink × Outcome) (cs ws : List (List Nat))
    (o : Outcome) (hA : HasCut runA cs ws o) (h : ∀ buf, runB buf = runA buf) :
    HasCut runB cs ws o := by
  refine ⟨by rw [h, hA.1], fun k => by rw [h, hA.2 k]⟩

theorem hasCut_bind (runA runB : Sink → Sink × Outcome) (cs ws1 : List (List Nat))
    (o1 : Outcome) (hA : HasCut runA cs ws1 o1)
    (hB : ∀ cs2, ∃ ws2 o2, HasCut runB cs2 ws2 o2) :
    ∃ ws o, HasCut (fun buf => match runA buf with
      | (b, .ok) => runB b
      | (b, o) => (b, o)) cs ws o := by
  cases o1 with
  | ok =>
    obtain ⟨ws2, o2, h2⟩ := hB (cs ++ ws1)
    exact ⟨ws1 ++ ws2, o2, hasCut_seq runA runB cs ws1 ws2 o2 hA h2⟩
  | error e => exact ⟨ws1, _, hasCut_stop runA runB cs ws1 _ hA (by simp)⟩
  | panic => exact ⟨ws1, _, hasCut_stop runA runB cs ws1 _ hA (by simp)⟩

theorem packFields_cons_eq (f : String × Bool × Value) (rest : List (String × Bool × Value))
    (buf : Sink) (val i : Nat) :
    packFields buf val i (f :: rest)
      = match ((packField buf val i f).1, (packField buf val i f).2.2) with
        | (b, .ok) => packFields b (register val f.2.2) (i + 1) rest
        | (b, o) => (b, o) := by
  rcases hf : packField buf val i f with ⟨b1, v1, o1⟩
  cases o1 with
  | ok =>
    have hv := (packField_wire f buf val i b1 v1 hf).2
    simp only [packFields, hf, hv]
  | error e => simp only [packFields, hf]
  | panic => simp only [packFields, hf]

theorem flush_cut (cs : List (List Nat)) (val : Nat) (p : List Nat) :
    HasCut (fun buf => ((flush buf val (some p)).1, (flush buf val (some p)).2.2)) cs [p] .ok := by
  apply hasCut_single
  intro buf
  simp only [flush]
  cases buf.write p <;> rfl

mutual
theorem Pack_cut : ∀ (v : Value) (cs : List (List Nat)),
    ∃ ws o, HasCut (fun buf => Pack buf v) cs ws o
  | .struct fields, cs => by
    obtain ⟨ws, o, h⟩ := packFields_cut fields cs 0 0
    exact ⟨ws, o, hasCut_congr _ _ cs ws o h (fun buf => by rw [Pack])⟩
  | .u64 _, cs | .u32 _, cs | .u16 _, cs | .byte _, cs | .bool _, cs | .bytes _, cs
  | .varint _, cs | .str _, cs | .slice _ _, cs | .other, cs =>
    ⟨[], .error .mustBeStruct, hasCut_nil _ cs _ (fun buf => by rfl)⟩
theorem packFields_cut : ∀ (fs : List (String × Bool × Value)) (cs : List (List Nat))
    (val i : Nat), ∃ ws o, HasCut (fun buf => packFields buf val i fs) cs ws o
  | [], cs, val, i => ⟨[], .ok, hasCut_nil _ cs _ (fun buf => by rw [packFields])⟩
  | f :: rest, cs, val, i => by
    obtain ⟨ws1, o1, h1⟩ := packField_cut f cs val i
    obtain ⟨ws, o, h⟩ := hasCut_bind _ (fun b => packFields b (register val f.2.2) (i + 1) rest)
      cs ws1 o1 h1 (fun cs2 => packFields_cut rest cs2 (register val f.2.2) (i + 1))
    exact ⟨ws, o, hasCut_congr _ _ cs ws o h (fun buf => packFields_cons_eq f rest buf val i)⟩
theorem packField_cut : ∀ (f : String × Bool × Value) (cs : List (List Nat)) (val i : Nat),
    ∃ ws o, HasCut (fun buf => ((packField buf val i f).1, (packField buf val i f).2.2)) cs ws o
  | (_, false, _), cs, val, i =>
    ⟨[], .panic, hasCut_nil _ cs _ (fun buf => by simp [packField])⟩
  | (_, true, .u64 dat), cs, val, i =>
    ⟨_, _, hasCut_congr _ _ cs _ _ (flush_cut cs dat _) (fun buf => by rw [packField])⟩
  | (_, true, .u32 dat), cs, val, i =>
    ⟨_, _, hasCut_congr _ _ cs _ _ (flush_cut cs dat _) (fun buf => by rw [packField])⟩
  | (_, true, .u16 dat), cs, val, i =>
    ⟨_, _, hasCut_congr _ _ cs _ _ (flush_cut cs dat _) (fun buf => by rw [packField])⟩
  | (_, true, .byte dat), cs, val, i =>
    ⟨_, _, hasCut_congr _ _ cs _ _ (flush_cut cs dat _) (fun buf => by rw [packField])⟩
  | (_, true, .bool dat), cs, val, i =>
    ⟨_, _, hasCut_congr _ _ cs _ _ (flush_cut cs val _) (fun buf => by rw [packField])⟩
  | (_, true, .varint dat), cs, val, i =>
    ⟨_, _, hasCut_congr _ _ cs _ _ (flush_cut cs dat _) (fun buf => by rw [packField])⟩
  | (tag, true, .bytes dat), cs, val, i => by
    cases hm : makeBytesFromTagForPack tag val dat with
    | error e =>
      exact ⟨[], .error e, hasCut_nil _ cs _ (fun buf => by simp [packField, hm])⟩
    | panic => exact ⟨[], .panic, hasCut_nil _ cs _ (fun buf => by simp [packField, hm])⟩
    | ok r =>
      exact ⟨_, _, hasCut_congr _ _ cs _ _ (flush_cut cs val r)
        (fun buf => by simp only [packField, hm])⟩
  | (_, true, .str dat), cs, val, i => by
    have hA : HasCut (fun buf : Sink => match buf.write (int2varint dat.length) with
        | none => (buf, Outcome.error Err.writeFailed)
        | some b => (b, Outcome.ok)) cs [int2varint dat.length] .ok :=
      hasCut_single _ cs _ (fun _ => rfl)
    have hB := flush_cut (cs ++ [int2varint dat.length]) val dat
    refine ⟨_, _, hasCut_congr _ _ cs _ _ (hasCut_seq _ _ cs _ _ _ hA hB) (fun buf => ?_)⟩
    simp only [packField]
    cases buf.write (int2varint dat.length) <;> rfl
  | (_, true, .struct fields), cs, val, i => by
    obtain ⟨ws, o, h⟩ := Pack_cut (.struct fields) cs
    refine ⟨ws, o, hasCut_congr _ _ cs ws o h (fun buf => ?_)⟩
    simp only [packField]
    rcases hp : Pack buf (.struct fields) with ⟨b1, o1⟩
    cases o1 <;> rfl
  | (tag, true, .slice _ items), cs, val, i => by
    by_cases ht : tag = prefixTag
    · have hA : HasCut (fun buf : Sink => match buf.write (int2varint items.length) with
          | none => (buf, Outcome.error Err.writeFailed)
          | some b => (b, Outcome.ok)) cs [int2varint items.length] .ok :=
        hasCut_single _ cs _ (fun _ => rfl)
      obtain ⟨ws2, o2, hB⟩ := packElems_cut items (cs ++ [int2varint items.length])
      refine ⟨_, _, hasCut_congr _ _ cs _ _ (hasCut_seq _ _ cs _ _ _ hA hB) (fun buf => ?_)⟩
      simp only [packField, if_pos ht]
      cases buf.write (int2varint items.length) with
      | none => rfl
      | some b1 =>
        dsimp only
        rcases hp : packElems b1 items with ⟨b2, o2⟩
        cases o2 <;> rfl
    · obtain ⟨ws, o, h⟩ := packElems_cut items cs
      refine ⟨ws, o, hasCut_congr _ _ cs ws o h (fun buf => ?_)⟩
      simp only [packField, if_neg ht]
      rcases hp : packElems buf items with ⟨b2, o2⟩
      cases o2 <;> rfl
  | (_, true, .other), cs, val, i =>
    ⟨[], .error (.cannotConvert i), hasCut_nil _ cs _ (fun buf => by simp [packField])⟩
theorem packElems_cut : ∀ (vs : List Value) (cs : List (List Nat)),
    ∃ ws o, HasCut (fun buf => packElems buf vs) cs ws o
  | [], cs => ⟨[], .ok, hasCut_nil _ cs _ (fun buf => by rw [packElems])⟩
  | v :: rest, cs => by
    obtain ⟨ws1, o1, h1⟩ := Pack_cut v cs
    obtain ⟨ws, o, h⟩ := hasCut_bind _ (fun b => packElems b rest) cs ws1 o1 h1
      (fun cs2 => packElems_cut rest cs2)
    exact ⟨ws, o, hasCut_congr _ _ cs ws o h (fun buf => by rw [packElems])⟩
end

/-- C17 as stated fails. A record whose only field is the string `ab` is packed
into a sink that accepts one write call and rejects the next: `Pack` returns
the error of the sink, and the sink holds the length prefix `02` without the
body, which is the encoding of no whole number of fields of the record. -/
theorem Pack_string_write_split :
    Pack ⟨[], some 1⟩ (.struct [("", true, .str [0x61, 0x62])])
      = (⟨[[2]], some 0⟩, .error .writeFailed) ∧
    ∀ n, Sink.bytes ⟨[[2]], some 0⟩
      ≠ wireFields 0 ([(("", true, .str [0x61, 0x62]) : String × Bool × Value)].take n) := by
  refine ⟨by decide, fun n => ?_⟩
  cases n with
  | zero => decide
  | succ n =>
    rw [List.take_succ_cons, List.take_nil]
    decide

/-- C17, amended. On a sink that accepts `k` more write calls and rejects the next,
`Pack` does what it does on a sink that accepts every call as long as `k` calls
suffice; otherwise it returns the error of the sink and the sink holds exactly
the first `k` write calls of the unhindered run. A fixed-width integer, byte,
bool, varint or byte-sequence field (its length prefix included) is one write
call; a string is two calls, its length prefix and then its body, so a sink
that rejects the second is left with the prefix alone. -/
theorem Pack_write_failure (v : Value) (cs : List (List Nat)) (tag : String) (val i n : Nat)
    (b : Bool) (dat : List Nat) :
    (∃ ws o, Pack ⟨cs, none⟩ v = (⟨cs ++ ws, none⟩, o) ∧
      ∀ k, Pack ⟨cs, some k⟩ v
        = (if ws.length ≤ k then (⟨cs ++ ws, some (k - ws.length)⟩, o)
          else (⟨cs ++ ws.take k, some 0⟩, .error .writeFailed))) ∧
    packField ⟨cs, none⟩ val i (tag, true, .u64 n) = (⟨cs ++ [putLE 8 n], none⟩, n, .ok) ∧
    packField ⟨cs, none⟩ val i (tag, true, .u32 n) = (⟨cs ++ [putLE 4 n], none⟩, n, .ok) ∧
    packField ⟨cs, none⟩ val i (tag, true, .u16 n) = (⟨cs ++ [putLE 2 n], none⟩, n, .ok) ∧
    packField ⟨cs, none⟩ val i (tag, true, .byte n) = (⟨cs ++ [[n]], none⟩, n, .ok) ∧
    packField ⟨cs, none⟩ val i (tag, true, .bool b)
      = (⟨cs ++ [[if b then 1 else 0]], none⟩, val, .ok) ∧
    packField ⟨cs, none⟩ val i (tag, true, .varint n)
      = (⟨cs ++ [int2varint n], none⟩, n, .ok) ∧
    packField ⟨cs, none⟩ val i (tag, true, .bytes dat)
      = (match makeBytesFromTagForPack tag val dat with
        | .ok r => (⟨cs ++ [r], none⟩, val, .ok)
        | .error e => (⟨cs, none⟩, val, .error e)
        | .panic => (⟨cs, none⟩, val, .panic)) ∧
    packField ⟨cs, none⟩ val i (tag, true, .str dat)
      = (⟨cs ++ [int2varint dat.length, dat], none⟩, val, .ok) ∧
    packField ⟨cs, some 1⟩ val i (tag, true, .str dat)
      = (⟨cs ++ [int2varint dat.length], some 0⟩, val, .error .writeFailed) := by
  refine ⟨?_, ?_, ?_, ?_, ?_, ?_, ?_, ?_, ?_, ?_⟩
  · obtain ⟨ws, o, h1, h2⟩ := Pack_cut v cs
    exact ⟨ws, o, h1, fun k => h2 k⟩
  · simp [packField, flush, Sink.write]
  · simp [packField, flush, Sink.write]
  · simp [packField, flush, Sink.write]
  · simp [packField, flush, Sink.write]
  · cases b <;> simp [packField, flush, Sink.write]
  · simp [packField, flush, Sink.write]
  · rw [packField]
    cases makeBytesFromTagForPack tag val dat <;> simp [flush, Sink.write]
  · simp [packField, flush, Sink.write]
  · simp [packField, flush, Sink.write]

theorem write_failure_examples :
    Pack ⟨[], some 12⟩ s1 = (⟨[[0x39, 0x30, 0, 0, 0, 0, 0, 0], [0x39, 0x30, 0, 0], [0x12],
        [0x12, 0x34, 0x45, 0, 0], [0x06, 0], [0x67, 0x89, 0xab, 0xcd, 0, 0], [0x23],
        [0xfd, 0x34, 0x12], [0xfe, 0x45, 0x23, 0x01, 0],
        [0xff, 0x89, 0x67, 0x45, 0x23, 0x01, 0, 0, 0], [0x05],
        [0x61, 0x62, 0x63, 0x64, 0x65]], some 0⟩, .error .writeFailed) ∧
    Pack ⟨[], some 11⟩ s1 = (⟨[[0x39, 0x30, 0, 0, 0, 0, 0, 0], [0x39, 0x30, 0, 0], [0x12],
        [0x12, 0x34, 0x45, 0, 0], [0x06, 0], [0x67, 0x89, 0xab, 0xcd, 0, 0], [0x23],
        [0xfd, 0x34, 0x12], [0xfe, 0x45, 0x23, 0x01, 0],
        [0xff, 0x89, 0x67, 0x45, 0x23, 0x01, 0, 0, 0], [0x05]], some 0⟩,
        .error .writeFailed) ∧
    Pack ⟨[], some 1⟩ (.struct [("prefix", true, .slice (S3 0) [S3 1, S3 2])])
      = (⟨[[2]], some 0⟩, .error .writeFailed) ∧
    (Pack ⟨[], some 18⟩ s1).2 = .ok ∧ (Pack ⟨[], some 18⟩ s1).1.bytes = result ∧
    (Pack ⟨[], some 17⟩ s1).2 = .error .writeFailed := by
  decide

end Packer
